import Mathlib

/-!
Verification of the `trade_parser` subsystem of the Le_corret repository.

The Python source (src/trade_parser.py) is shallowly embedded below.  Text is
modelled as `List Char`; monetary values (Python floats, which in this pipeline
always hold small decimal fractions) are modelled as exact rationals `ℚ`.
Because the library `Rat.add`, `Rat.mul`, `Rat.sub` and `Rat.inv` are marked
irreducible and so do not evaluate inside `decide`, the embedding computes with
wrapper operations (`qAdd`, `qSub`, `qNeg`, `qAbs`, `qDec`, ...) that build the
result directly with `Rat.divInt`; bridge lemmas below prove each wrapper equal
to the corresponding standard operation on `ℚ`, so statements are about
ordinary rational arithmetic.

Python specifics modelled explicitly:
  * `str.lower` and accent removal (`unicodedata.NFD` + dropping combining
    marks) are restricted to the Latin letter repertoire that occurs in the
    vocabulary of this repository (ASCII plus the accented vowels and cedilla
    used in the broker phrases); other characters map to themselves.
  * `int(...)` and `float(...)` are modelled by `pyInt` / `pyFloat`
    (optional sign, digits, decimal point, optional exponent); the
    `inf`, `nan` and PEP-515 underscore forms, which cannot arise from the
    numeric tokens this pipeline feeds them, are not modelled.
  * IEEE-754 rounding artifacts of Python floats are out of scope: values are
    exact rationals.
-/

set_option maxRecDepth 100000

-- ===== kernel-reducible rational arithmetic =====

/-- Addition on `ℚ` realised through `Rat.divInt` so that it evaluates under
`decide`; proved equal to `+` in `qAdd_eq`. -/
def qAdd (a b : ℚ) : ℚ := Rat.divInt (a.num * b.den + b.num * a.den) (a.den * b.den)

/-- Subtraction on `ℚ` realised through `Rat.divInt`; proved equal to `-` in
`qSub_eq`. -/
def qSub (a b : ℚ) : ℚ := Rat.divInt (a.num * b.den - b.num * a.den) (a.den * b.den)

/-- Negation on `ℚ` realised through `Rat.divInt`; proved equal to `-·` in
`qNeg_eq`. -/
def qNeg (a : ℚ) : ℚ := Rat.divInt (-a.num) a.den

/-- Absolute value on `ℚ` realised through `Rat.divInt`; proved equal to
`|·|` in `qAbs_eq`. -/
def qAbs (a : ℚ) : ℚ := Rat.divInt (a.num.natAbs) a.den

/-- The decimal fraction `m / 10 ^ e` as a rational. -/
def qDec (m : Int) (e : Nat) : ℚ := Rat.divInt m (Int.ofNat (10 ^ e))

/-- Multiplication of a rational by a natural number. -/
def qMulNat (a : ℚ) (n : Nat) : ℚ := Rat.divInt (a.num * n) (Int.ofNat a.den)

/-- Division of a rational by a natural number. -/
def qDivNat (a : ℚ) (n : Nat) : ℚ := Rat.divInt a.num (Int.ofNat (a.den * n))

/-- Sum of a list of rationals, mirroring the running float sums of the
source; proved equal to `List.sum` in `qSum_eq`. -/
def qSum (l : List ℚ) : ℚ := l.foldl qAdd 0

/-- Floor of a rational, computed with `Int.fdiv` so that it evaluates under
`decide`. -/
def ratFloor (x : ℚ) : ℤ := Int.fdiv x.num x.den

/-- Round to the nearest integer, ties to even: the rounding used by
`pandas.Series.round` (IEEE round-half-even) on the exact rational model. -/
def roundHalfEven (x : ℚ) : ℤ :=
  let f : ℤ := ratFloor x
  let r : ℚ := qSub x (Rat.divInt f 1)
  if r < Rat.divInt 1 2 then f
  else if Rat.divInt 1 2 < r then f + 1
  else if f % 2 = 0 then f else f + 1

/-- `Series.round(2)` of the source (line 991): round to two decimal places,
ties to even. -/
def round2 (x : ℚ) : ℚ := Rat.divInt (roundHalfEven (qMulNat x 100)) 100

-- ===== Python string primitives =====

/-- Python `\s` (ASCII repertoire): the whitespace class used by `str.split`,
`str.strip` and the regex patterns of the source. -/
def isPySpace (c : Char) : Bool :=
  c = ' ' || c = '\t' || c = '\n' || c = '\r' || c = '\x0b' || c = '\x0c'

/-- Lower-case mapping pairs: ASCII letters plus the accented letters of the
broker vocabulary (the repertoire relevant to this source). -/
def lowerPairs : List (Char × Char) :=
  [('A', 'a'), ('B', 'b'), ('C', 'c'), ('D', 'd'), ('E', 'e'), ('F', 'f'),
   ('G', 'g'), ('H', 'h'), ('I', 'i'), ('J', 'j'), ('K', 'k'), ('L', 'l'),
   ('M', 'm'), ('N', 'n'), ('O', 'o'), ('P', 'p'), ('Q', 'q'), ('R', 'r'),
   ('S', 's'), ('T', 't'), ('U', 'u'), ('V', 'v'), ('W', 'w'), ('X', 'x'),
   ('Y', 'y'), ('Z', 'z'),
   ('Á', 'á'), ('À', 'à'), ('Â', 'â'), ('Ã', 'ã'), ('Ä', 'ä'),
   ('É', 'é'), ('È', 'è'), ('Ê', 'ê'),
   ('Í', 'í'), ('Ì', 'ì'), ('Î', 'î'),
   ('Ó', 'ó'), ('Ò', 'ò'), ('Ô', 'ô'), ('Õ', 'õ'), ('Ö', 'ö'),
   ('Ú', 'ú'), ('Ù', 'ù'), ('Û', 'û'), ('Ü', 'ü'),
   ('Ç', 'ç'), ('Ñ', 'ñ')]

/-- Upper-case mapping pairs (inverse table of `lowerPairs`). -/
def upperPairs : List (Char × Char) :=
  lowerPairs.map (fun p => (p.2, p.1))

/-- First-match association lookup on character pairs. -/
def chLookup (c : Char) : List (Char × Char) → Option Char
  | [] => none
  | (k, v) :: rest => if c = k then some v else chLookup c rest

/-- Python `str.lower` restricted to the repertoire of `lowerPairs`. -/
def pyLower (c : Char) : Char := (chLookup c lowerPairs).getD c

/-- Python `str.upper` restricted to the repertoire of `upperPairs`. -/
def pyUpper (c : Char) : Char := (chLookup c upperPairs).getD c

/-- NFD decomposition followed by removal of combining marks, per character:
an accented letter maps to its base letter, anything else to itself
(`remove_accents`, source lines 93-95, restricted to the repertoire of this
source). -/
def decompPairs : List (Char × Char) :=
  [('á', 'a'), ('à', 'a'), ('â', 'a'), ('ã', 'a'), ('ä', 'a'),
   ('é', 'e'), ('è', 'e'), ('ê', 'e'),
   ('í', 'i'), ('ì', 'i'), ('î', 'i'),
   ('ó', 'o'), ('ò', 'o'), ('ô', 'o'), ('õ', 'o'), ('ö', 'o'),
   ('ú', 'u'), ('ù', 'u'), ('û', 'u'), ('ü', 'u'),
   ('ç', 'c'), ('ñ', 'n'),
   ('Á', 'A'), ('À', 'A'), ('Â', 'A'), ('Ã', 'A'), ('Ä', 'A'),
   ('É', 'E'), ('È', 'E'), ('Ê', 'E'),
   ('Í', 'I'), ('Ì', 'I'), ('Î', 'I'),
   ('Ó', 'O'), ('Ò', 'O'), ('Ô', 'O'), ('Õ', 'O'), ('Ö', 'O'),
   ('Ú', 'U'), ('Ù', 'U'), ('Û', 'U'), ('Ü', 'U'),
   ('Ç', 'C'), ('Ñ', 'N')]

/-- Decomposition of one character under `remove_accents`. -/
def charDecomp (c : Char) : List Char :=
  match chLookup c decompPairs with
  | some b => [b]
  | none => [c]

/-- `remove_accents` (source lines 93-95) on a character list. -/
def removeAccents (l : List Char) : List Char := l.flatMap charDecomp

/-- Case-sensitive prefix test on character lists. -/
def startsWithB : List Char → List Char → Bool
  | [], _ => true
  | _ :: _, [] => false
  | p :: ps, c :: cs => p = c && startsWithB ps cs

/-- Python substring containment `pat in hay` (case-sensitive). -/
def containsTok (hay pat : List Char) : Bool :=
  match pat with
  | [] => true
  | _ :: _ =>
    match hay with
    | [] => false
    | _ :: cs => startsWithB pat hay || containsTok cs pat

/-- Case-insensitive prefix test (both sides lowered with `pyLower`), used to
model `re.IGNORECASE` literal matching. -/
def startsWithCI : List Char → List Char → Bool
  | [], _ => true
  | _ :: _, [] => false
  | p :: ps, c :: cs => pyLower p = pyLower c && startsWithCI ps cs

/-- Case-insensitive substring containment. -/
def containsCI (hay pat : List Char) : Bool :=
  match pat with
  | [] => true
  | _ :: _ =>
    match hay with
    | [] => false
    | _ :: cs => startsWithCI pat hay || containsCI cs pat

/-- Python `str.splitlines` (newline repertoire `\n`, `\r`, `\r\n`; no
trailing empty line).  The flag records that the previous character was a
`\r`, so that the `\n` of a `\r\n` pair does not start a line of its own. -/
def splitlinesGo : List Char → List Char → Bool → List (List Char)
  | [], cur, _ => if cur.isEmpty then [] else [cur.reverse]
  | c :: rest, cur, afterCR =>
    if afterCR ∧ c = '\n' then splitlinesGo rest cur false
    else if c = '\r' then cur.reverse :: splitlinesGo rest [] true
    else if c = '\n' then cur.reverse :: splitlinesGo rest [] false
    else splitlinesGo rest (c :: cur) false

/-- Python `str.splitlines`. -/
def pySplitlines (l : List Char) : List (List Char) := splitlinesGo l [] false

/-- Python `str.strip()` (no argument: strip whitespace at both ends). -/
def pyStrip (l : List Char) : List Char :=
  ((l.dropWhile isPySpace).reverse.dropWhile isPySpace).reverse

/-- Python `str.split()` (no argument: split on whitespace runs, no empty
tokens). -/
def tokensGo : List Char → List Char → List (List Char)
  | [], cur => if cur.isEmpty then [] else [cur.reverse]
  | c :: rest, cur =>
    if isPySpace c then
      if cur.isEmpty then tokensGo rest [] else cur.reverse :: tokensGo rest []
    else tokensGo rest (c :: cur)

/-- Python `str.split()`. -/
def pyTokens (l : List Char) : List (List Char) := tokensGo l []

/-- Value of a digit string (used only under an all-digit guard). -/
def natVal (l : List Char) : Nat :=
  l.foldl (fun a c => a * 10 + (c.toNat - 48)) 0

/-- Python `int(...)` on a string: optional surrounding whitespace, optional
sign, then a non-empty digit string; anything else raises, modelled as
`none`. -/
def pyInt (l : List Char) : Option Int :=
  match pyStrip l with
  | [] => none
  | c :: rest =>
    if c = '+' then
      if rest ≠ [] ∧ rest.all Char.isDigit then some (Int.ofNat (natVal rest)) else none
    else if c = '-' then
      if rest ≠ [] ∧ rest.all Char.isDigit then some (-(Int.ofNat (natVal rest))) else none
    else
      if (c :: rest).all Char.isDigit then some (Int.ofNat (natVal (c :: rest))) else none

/-- Split a character list at the first character satisfying `p`:
returns the part before it and, when found, the part after it. -/
def splitAtCharGo (p : Char → Bool) : List Char → List Char → List Char × Option (List Char)
  | [], acc => (acc.reverse, none)
  | c :: rest, acc =>
    if p c then (acc.reverse, some rest) else splitAtCharGo p rest (c :: acc)

/-- Split at the first character satisfying `p`. -/
def splitAtChar (l : List Char) (p : Char → Bool) : List Char × Option (List Char) :=
  splitAtCharGo p l []

/-- The optional exponent part of Python `float(...)`: `none` when the
string has no `e`/`E`, otherwise a sign and a non-empty digit string scaling
the mantissa by a power of ten. -/
def applyExponent (base : ℚ) : Option (List Char) → Option ℚ
  | none => some base
  | some [] => none
  | some (c :: d) =>
    if c = '+' then
      if d ≠ [] ∧ d.all Char.isDigit then some (qMulNat base (10 ^ natVal d)) else none
    else if c = '-' then
      if d ≠ [] ∧ d.all Char.isDigit then some (qDivNat base (10 ^ natVal d)) else none
    else
      if (c :: d).all Char.isDigit then some (qMulNat base (10 ^ natVal (c :: d))) else none

/-- The mantissa of a float string: everything before the first `e`/`E`. -/
def mantissa (l : List Char) : List Char :=
  (splitAtChar l (fun c => c = 'e' || c = 'E')).1

/-- The exponent part of a float string: everything after the first `e`/`E`,
when present. -/
def expoPart (l : List Char) : Option (List Char) :=
  (splitAtChar l (fun c => c = 'e' || c = 'E')).2

/-- The digits before the decimal point of the mantissa. -/
def intDigits (l : List Char) : List Char :=
  (splitAtChar (mantissa l) (fun c => c = '.')).1

/-- The digits after the decimal point of the mantissa (empty when there is
no point). -/
def fracDigits (l : List Char) : List Char :=
  ((splitAtChar (mantissa l) (fun c => c = '.')).2).getD []

/-- Unsigned part of Python `float(...)`: digits with an optional single
decimal point (at least one digit overall) and an optional exponent part. -/
def parseUnsignedFloat (l : List Char) : Option ℚ :=
  if (intDigits l ++ fracDigits l).isEmpty then none
  else if (intDigits l ++ fracDigits l).all Char.isDigit then
    applyExponent (qDec (Int.ofNat (natVal (intDigits l ++ fracDigits l)))
      (fracDigits l).length) (expoPart l)
  else none

/-- Python `float(...)` on a string: optional surrounding whitespace and sign
around `parseUnsignedFloat`; anything else raises, modelled as `none`. -/
def pyFloat (l : List Char) : Option ℚ :=
  match pyStrip l with
  | [] => none
  | c :: rest =>
    if c = '+' then parseUnsignedFloat rest
    else if c = '-' then (parseUnsignedFloat rest).map qNeg
    else parseUnsignedFloat (c :: rest)

/-- `GenericParser._clean_numeric` (source lines 504-508): drop all `.`
(thousands separators), turn `,` into `.`, then `float(...)`; any parse
failure yields `0.0`. -/
def cleanNumeric (l : List Char) : ℚ :=
  (pyFloat ((l.filter (fun c => c ≠ '.')).map (fun c => if c = ',' then '.' else c))).getD 0

-- ===== document classifier (source lines 97-120) =====

/-- The spot-market phrases of `classify_invoice_type` (source lines 101-103). -/
def spotTerms : List (List Char) :=
  [("negocios realizados").data, ("resumo dos negocios").data, ("negocios efetuados").data]

/-- The guard terms of the spot branch of `classify_invoice_type` (source
lines 103-105); note the capital `M` of `"Mercadoria"`, compared against a
lower-cased text. -/
def avistaGuardTerms : List (List Char) :=
  [("Mercadoria").data, ("c/v mercadoria").data]

/-- The fallback futures vocabulary of `classify_invoice_type` (source lines
114-117). -/
def bmfFallbackTerms : List (List Char) :=
  [("ajuste de posicao").data, ("ajuste day trade").data, ("taxa registro bmf").data,
   ("irrf day trade").data, ("vencimento").data, ("c/v mercadoria").data, ("Mercadoria").data]

/-- `remove_accents(text.lower())` (source line 98). -/
def normalizeText (t : List Char) : List Char := removeAccents (t.map pyLower)

/-- `classify_invoice_type` (source lines 97-120); the Python code binds
`normalized = remove_accents(text.lower())` once, written out here as
`normalizeText t` at each use. -/
def classifyInvoiceType (t : List Char) : String :=
  if (spotTerms.any fun x => containsTok (normalizeText t) x) &&
      !(avistaGuardTerms.any fun x => containsTok (normalizeText t) x) then "avista"
  else if containsTok (normalizeText t) ("c/v mercadoria vencimento").data &&
      containsTok (normalizeText t) ("ajuste de posicao").data then "bmf"
  else if bmfFallbackTerms.any fun x => containsTok (normalizeText t) x then "bmf"
  else "unknown"

-- ===== broker signature patterns (regex subset) =====

/-- The subset of regular-expression syntax used by the brokerage signature
patterns of the source: literal characters, character classes, and `\s+`
(one or more whitespace characters); all matched case-insensitively per
`re.IGNORECASE`. -/
inductive Pat where
  | done : Pat
  | lit : Char → Pat → Pat
  | cls : List Char → Pat → Pat
  | wsp : Pat → Pat
deriving DecidableEq

/-- A sequence of literal characters followed by `rest`. -/
def lits (s : String) (rest : Pat) : Pat := s.data.foldr Pat.lit rest

/-- Match a pattern at the start of a character list (case-insensitive, with
backtracking for `\s+`). -/
def matchPat : List Char → Pat → Bool
  | _, .done => true
  | [], .lit _ _ => false
  | x :: xs, .lit c r => (pyLower x = pyLower c) && matchPat xs r
  | [], .cls _ _ => false
  | x :: xs, .cls cs r => (cs.any fun c => pyLower x = pyLower c) && matchPat xs r
  | [], .wsp _ => false
  | x :: xs, .wsp r => isPySpace x && (matchPat xs r || matchPat xs (.wsp r))

/-- Python `re.search`: try the pattern at every position. -/
def searchPat : List Char → Pat → Bool
  | [], p => matchPat [] p
  | l@(_ :: rest), p => matchPat l p || searchPat rest p

-- ===== broker configuration (source lines 196-270) =====

/-- `BrokerConfig` (source lines 196-204), carrying the fields the claims
exercise: broker name, the two trade-section markers, and the signature
patterns.  The invoice-number, trade-date and client-id regex lists feed
extraction helpers that no claim touches and are not carried. -/
structure BrokerCfg where
  name : String
  tradeStartMarker : List Char
  tradeEndMarker : List Char
  signaturePats : List Pat
deriving DecidableEq

/-- `BTG_CONFIG` (source lines 206-221). -/
def btgConfig : BrokerCfg :=
  { name := "BTG",
    tradeStartMarker := ("Negócios realizados").data,
    tradeEndMarker := ("Resumo dos Negócios").data,
    signaturePats := [lits "BTG" (.wsp (lits "Pactual" .done)),
                      lits "BTG" (.wsp (lits "Corretora" .done))] }

/-- `ITAU_CONFIG` (source lines 223-236). -/
def itauConfig : BrokerCfg :=
  { name := "ITAU",
    tradeStartMarker := ("Negócios Realizados").data,
    tradeEndMarker := ("Resumo de negócios").data,
    signaturePats := [lits "Ita" (.cls ['ú', 'u'] (.wsp (lits "Corretora" .done))),
                      lits "ITA" (.cls ['Ú', 'U'] (lits " UNIBANCO" .done))] }

/-- `AGORA_CONFIG` (source lines 238-253); note the accent-free
"Negocios Realizados" start marker. -/
def agoraConfig : BrokerCfg :=
  { name := "AGORA",
    tradeStartMarker := ("Negocios Realizados").data,
    tradeEndMarker := ("Resumo dos Negócios").data,
    signaturePats := [lits "AGORA" (.wsp (lits "CORRETORA" .done)),
                      lits "agorainvestimentos.com.br" .done] }

/-- `XP_CONFIG` (source lines 255-270). -/
def xpConfig : BrokerCfg :=
  { name := "XP",
    tradeStartMarker := ("Negócios realizados").data,
    tradeEndMarker := ("Resumo dos Negócios").data,
    signaturePats := [lits "XP" (.wsp (lits "INVESTIMENTOS" (.wsp (lits "CORRETORA" .done)))),
                      lits "xpi.com.br" .done] }

-- ===== trade block isolation (source lines 356-360) =====

/-- Body of one trade block: the shortest extension until the end marker
matches (case-insensitively) at the current position, or until the end of
input; this models the non-greedy `.*?` with the lookahead `(?=END|$)` in
`re.findall(rf"START.*?(?=END|$)", text, re.DOTALL | re.IGNORECASE)`.
With `re.DOTALL` and no `re.MULTILINE`, `$` also matches just before a
newline that ends the whole text, hence the trailing-newline case.  Returns
the block body and the remaining text from which scanning resumes. -/
def scanBody (endm : List Char) : List Char → List Char × List Char
  | [] => ([], [])
  | c :: cs =>
    if startsWithCI endm (c :: cs) then ([], c :: cs)
    else if c = '\n' ∧ cs = [] then ([], [c])
    else
      let bp := scanBody endm cs
      (c :: bp.1, bp.2)

/-- Fuel-indexed scanner for `re.findall` of the trade-block pattern: find
each case-insensitive occurrence of the start marker, extend non-greedily to
the end marker or end of input, and resume after the block.  The fuel (one
unit per character consumed) only makes the recursion structural; it is
always called with more fuel than the text length. -/
def findBlocksGo (startm endm : List Char) : Nat → List Char → List (List Char)
  | 0, _ => []
  | _ + 1, [] => []
  | fuel + 1, c :: cs =>
    if startsWithCI startm (c :: cs) then
      let body := scanBody endm ((c :: cs).drop startm.length)
      ((c :: cs).take startm.length ++ body.1) :: findBlocksGo startm endm fuel body.2
    else findBlocksGo startm endm fuel cs

/-- All trade blocks of a text (source lines 356-360). -/
def findBlocks (startm endm text : List Char) : List (List Char) :=
  findBlocksGo startm endm (text.length + 1) text

-- ===== header detection and data lines (source lines 362-378) =====

/-- `expected_labels` (source line 366). -/
def expectedLabels : List (List Char) :=
  [("negociação").data, ("c/v").data, ("tipo").data,
   ("quantidade").data, ("preço").data, ("valor").data]

/-- Header test on a two-line window (source lines 367-369): join the two
lines with a space, lower-case, and count how many expected labels occur. -/
def headerHit (l1 l2 : List Char) : Bool :=
  decide (4 ≤ expectedLabels.countP
    (fun lbl => containsTok ((l1 ++ ' ' :: l2).map pyLower) lbl))

/-- Find the first two-line window hitting the header test and return the
lines after it (`lines[header_idx:]` with `header_idx = i + 2`, source lines
367-371); `none` when no window hits (source lines 373-374). -/
def findHeaderTail : List (List Char) → Option (List (List Char))
  | l1 :: l2 :: rest => if headerHit l1 l2 then some rest else findHeaderTail (l2 :: rest)
  | _ => none

/-- Stop condition of the data-line loop (source line 377): blank line or a
line containing "resumo" (lower-cased). -/
def lineStops (l : List Char) : Bool :=
  (pyStrip l).isEmpty || containsTok (l.map pyLower) ("resumo").data

/-- The data lines: everything up to the first stopping line. -/
def takeDataLines : List (List Char) → List (List Char)
  | [] => []
  | l :: rest => if lineStops l then [] else l :: takeDataLines rest

-- ===== spot trade line parsing (source lines 376-415) =====

/-- One spot-market trade dict as built by `GenericParser._extract_trades`
(source lines 382-408). -/
structure AvistaTrade where
  negociacao : String
  cv : String
  tipoMercado : String
  especificacao : String
  quantidade : Int
  preco : ℚ
  valor : ℚ
  dc : String
  tipo : String
deriving DecidableEq

/-- `tokens[i]` with the out-of-range convention of the embedding: parsers
check the length before indexing, so the `[]` default is never read. -/
def tokGet (toks : List (List Char)) (i : Nat) : List Char := toks.getD i []

/-- Removal of `.` and `,` from the quantity token (source line 387). -/
def stripSeps (l : List Char) : List Char :=
  l.filter (fun c => c ≠ '.' && c ≠ ',')

/-- Python `" ".join`. -/
def joinSpace : List (List Char) → List Char
  | [] => []
  | [x] => x
  | x :: y :: rest => x ++ ' ' :: joinSpace (y :: rest)

/-- Parse one trade line with the XP/BTG/ITAU token layout (source lines
381-391).  Any token-index error or `int(...)` failure raises in Python and
the line is skipped (source lines 411-413), modelled as `none`.  The minimal
length for all the indices used is 4. -/
def parseXpBtgItauLine (toks : List (List Char)) : Option AvistaTrade :=
  if toks.length < 4 then none
  else
    match pyInt (stripSeps (tokGet toks (toks.length - 4))) with
    | none => none
    | some q =>
      some { negociacao := String.mk (tokGet toks 0),
             cv := String.mk (tokGet toks 1),
             tipoMercado := String.mk (tokGet toks 2),
             especificacao := String.mk (joinSpace ((toks.drop 3).take 2)),
             quantidade := q,
             preco := cleanNumeric (tokGet toks (toks.length - 3)),
             valor := cleanNumeric (tokGet toks (toks.length - 2)),
             dc := String.mk (tokGet toks (toks.length - 1)),
             tipo := "A Vista" }

/-- Parse one trade line with the AGORA token layout (source lines 393-403);
the minimal length for all the indices used is 5. -/
def parseAgoraLine (toks : List (List Char)) : Option AvistaTrade :=
  if toks.length < 5 then none
  else
    match pyInt (stripSeps (tokGet toks (toks.length - 4))) with
    | none => none
    | some q =>
      some { negociacao := String.mk (joinSpace (toks.take 2)),
             cv := String.mk (tokGet toks 3),
             tipoMercado := String.mk (tokGet toks 4),
             especificacao := String.mk (joinSpace ((toks.drop 5).take 2)),
             quantidade := q,
             preco := cleanNumeric (tokGet toks (toks.length - 3)),
             valor := cleanNumeric (tokGet toks (toks.length - 2)),
             dc := String.mk (tokGet toks (toks.length - 1)),
             tipo := "A Vista" }

/-- Dispatch on the upper-cased broker name (source lines 381, 393, 405-406):
an unrecognised name hits `continue` and contributes no trade. -/
def parseTradeLine (nameU : List Char) (toks : List (List Char)) : Option AvistaTrade :=
  if containsTok nameU ("XP").data || containsTok nameU ("BTG").data ||
      containsTok nameU ("ITAU").data then
    parseXpBtgItauLine toks
  else if containsTok nameU ("AGORA").data then parseAgoraLine toks
  else none

/-- Upper-case a character list. -/
def pyUpperL (l : List Char) : List Char := l.map pyUpper

/-- `tokens = line.strip().split()` (source lines 380, 520, 602). -/
def lineToks (line : List Char) : List (List Char) := pyTokens (pyStrip line)

/-- `GenericParser._extract_trades` (source lines 351-415): isolate the trade
blocks, find the column header in each, then parse each data line, skipping
lines that fail. -/
def genericExtractTrades (cfg : BrokerCfg) (text : List Char) : List AvistaTrade :=
  (findBlocks cfg.tradeStartMarker cfg.tradeEndMarker text).flatMap fun block =>
    match findHeaderTail (pySplitlines block) with
    | none => []
    | some tail =>
      (takeDataLines tail).filterMap fun line =>
        parseTradeLine (pyUpperL cfg.name.data) (lineToks line)

-- ===== futures trade line parsing (source lines 516-538 and 597-646) =====

/-- One futures trade dict as built by the BM&F parsers (source lines
523-534 and 628-639). -/
structure BmfTrade where
  tipo : String
  cv : String
  mercadoria : String
  vencimento : String
  quantidade : Int
  precoAjuste : ℚ
  tipoNegocio : String
  valorOperacao : ℚ
  dc : String
  taxaOperacional : ℚ
deriving DecidableEq

/-- `re.match(r"^[CV]$", tok)`: the token is exactly `C` or `V`
(case-sensitive). -/
def matchCVExact (t : List Char) : Bool := t = ['C'] || t = ['V']

/-- `re.match(r"\d{2}/\d{2}/\d{4}", tok)`: a date-shaped prefix. -/
def dateShapedPrefix : List Char → Bool
  | d1 :: d2 :: '/' :: d3 :: d4 :: '/' :: d5 :: d6 :: d7 :: d8 :: _ =>
    d1.isDigit && d2.isDigit && d3.isDigit && d4.isDigit &&
      d5.isDigit && d6.isDigit && d7.isDigit && d8.isDigit
  | _ => false

/-- `re.search(r"\d{2}/\d{2}/\d{4}", tok)`: a date shape anywhere in the
token. -/
def containsDateShape : List Char → Bool
  | [] => false
  | l@(_ :: rest) => dateShapedPrefix l || containsDateShape rest

/-- `BMFParser._extract_trades` (source lines 516-538): line-based, token 0
exactly `C`/`V`, token 2 date-shaped prefix, at least 9 tokens; `int(...)`
failure skips the line. -/
def bmfExtractTrades (text : List Char) : List BmfTrade :=
  (pySplitlines text).filterMap fun line =>
    if 9 ≤ (lineToks line).length ∧ matchCVExact (tokGet (lineToks line) 0) = true ∧
        dateShapedPrefix (tokGet (lineToks line) 2) = true then
      match pyInt (tokGet (lineToks line) 3) with
      | none => none
      | some q =>
        some { tipo := "BM&F",
               cv := String.mk (tokGet (lineToks line) 0),
               mercadoria := String.mk (tokGet (lineToks line) 1),
               vencimento := String.mk (tokGet (lineToks line) 2),
               quantidade := q,
               precoAjuste := cleanNumeric (tokGet (lineToks line) 4),
               tipoNegocio := String.mk (tokGet (lineToks line) 5),
               valorOperacao := cleanNumeric (tokGet (lineToks line) 6),
               dc := String.mk (tokGet (lineToks line) 7),
               taxaOperacional := cleanNumeric (tokGet (lineToks line) 8) }
    else none

/-- `XPBMFParser._extract_trades` (source lines 597-646): at least 10 tokens,
token 0 exactly `C`/`V`, a date shape anywhere in token 3; `@` stripped from
the maturity, `.` stripped from the quantity; a split "DAY TRADE" shifts the
remaining positions by one (and then needs an 11th token, else the line is
skipped by the except). -/
def xpBmfExtractTrades (text : List Char) : List BmfTrade :=
  (pySplitlines text).filterMap fun line =>
    if (lineToks line).length < 10 then none
    else if matchCVExact (tokGet (lineToks line) 0) = true ∧
        containsDateShape (tokGet (lineToks line) 3) = true then
      match pyInt ((tokGet (lineToks line) 4).filter (fun c => c ≠ '.')) with
      | none => none
      | some q =>
        if tokGet (lineToks line) 6 = ("DAY").data ∧
            tokGet (lineToks line) 7 = ("TRADE").data then
          if (lineToks line).length < 11 then none
          else
            some { tipo := "BM&F",
                   cv := String.mk (tokGet (lineToks line) 0),
                   mercadoria := String.mk (tokGet (lineToks line) 1 ++ ' ' :: tokGet (lineToks line) 2),
                   vencimento := String.mk ((tokGet (lineToks line) 3).filter (fun c => c ≠ '@')),
                   quantidade := q,
                   precoAjuste := cleanNumeric (tokGet (lineToks line) 5),
                   tipoNegocio := "DAY TRADE",
                   valorOperacao := cleanNumeric (tokGet (lineToks line) 8),
                   dc := String.mk (tokGet (lineToks line) 9),
                   taxaOperacional := cleanNumeric (tokGet (lineToks line) 10) }
        else
          some { tipo := "BM&F",
                 cv := String.mk (tokGet (lineToks line) 0),
                 mercadoria := String.mk (tokGet (lineToks line) 1 ++ ' ' :: tokGet (lineToks line) 2),
                 vencimento := String.mk ((tokGet (lineToks line) 3).filter (fun c => c ≠ '@')),
                 quantidade := q,
                 precoAjuste := cleanNumeric (tokGet (lineToks line) 5),
                 tipoNegocio := String.mk (tokGet (lineToks line) 6),
                 valorOperacao := cleanNumeric (tokGet (lineToks line) 7),
                 dc := String.mk (tokGet (lineToks line) 8),
                 taxaOperacional := cleanNumeric (tokGet (lineToks line) 9) }
    else none

-- ===== concrete scenario inputs =====

/-- The spot scenario text of the specification (section 8). -/
def scenarioText : List Char :=
  ("Negócios realizados\nB3 RV LISTADO C VISTA PETR4 100 28,50 2850,00 D\nResumo dos Negócios").data

/-- The scenario text with a column-header line inserted after the start
marker, so that header detection succeeds. -/
def headeredScenarioText : List Char :=
  ("Negócios realizados\nNegociação C/V Tipo Quantidade Preço Valor\nB3 RV LISTADO C VISTA PETR4 100 28,50 2850,00 D\nResumo dos Negócios").data

/-- The headered scenario text with the end marker removed. -/
def noEndMarkerText : List Char :=
  ("Negócios realizados\nNegociação C/V Tipo Quantidade Preço Valor\nB3 RV LISTADO C VISTA PETR4 100 28,50 2850,00 D").data

/-- The headered scenario text with a negative quantity token and a negative
value token. -/
def negativeValuesText : List Char :=
  ("Negócios realizados\nNegociação C/V Tipo Quantidade Preço Valor\nB3 RV LISTADO C VISTA PETR4 -100 28,50 -2850,00 D\nResumo dos Negócios").data

/-- The trade the XP/BTG/ITAU token layout produces from the scenario data
line: note `cv = "RV"` and `tipoMercado = "LISTADO"`, per the positional
mapping of source lines 382-391. -/
def scenarioTrade : AvistaTrade :=
  { negociacao := "B3", cv := "RV", tipoMercado := "LISTADO",
    especificacao := "C VISTA", quantidade := 100,
    preco := qDec 2850 2, valor := qDec 285000 2, dc := "D", tipo := "A Vista" }

-- ===== page grouping and splitting (source lines 147-194) =====

/-- The append of `(current_key, current_pages)` to `groups` performed by
`group_pages_by_date_and_type` whenever `current_pages` is non-empty (source
lines 157-158 and 163-164); pages are only collected after a key is set, so
a non-empty page list always comes with a set key. -/
def groupFlush (ck : Option (String × String)) (cp : List Nat)
    (acc : List ((String × String) × List Nat)) : List ((String × String) × List Nat) :=
  match ck, cp with
  | some k, _ :: _ => acc ++ [(k, cp)]
  | _, _ => acc

/-- The loop of `group_pages_by_date_and_type` (source lines 152-164):
`i` the page index, `ck` the current key, `cp` the current page list,
`acc` the groups collected so far. -/
def groupPagesGo : List (Option String × String) → Nat → Option (String × String) →
    List Nat → List ((String × String) × List Nat) → List ((String × String) × List Nat)
  | [], _, ck, cp, acc => groupFlush ck cp acc
  | (d, tipo) :: rest, i, ck, cp, acc =>
    match d with
    | none => groupPagesGo rest (i + 1) ck cp acc
    | some dd =>
      if tipo = "unknown" then groupPagesGo rest (i + 1) ck cp acc
      else if ck = some (dd, tipo) then groupPagesGo rest (i + 1) ck (cp ++ [i]) acc
      else groupPagesGo rest (i + 1) (some (dd, tipo)) [i] (groupFlush ck cp acc)

/-- `group_pages_by_date_and_type` (source lines 147-165). -/
def groupPagesByDateAndType (pairs : List (Option String × String)) :
    List ((String × String) × List Nat) :=
  groupPagesGo pairs 0 none [] []

/-- Specification-side definition (from the specification text, to be
compared with `groupPagesByDateAndType`): the kept pages, i.e. the
`(key, index)` sequence of pages with a date and a known kind, indices
starting at `i`. -/
def keptFrom (i : Nat) : List (Option String × String) → List ((String × String) × Nat)
  | [] => []
  | (d, tipo) :: rest =>
    match d with
    | none => keptFrom (i + 1) rest
    | some dd =>
      if tipo = "unknown" then keptFrom (i + 1) rest
      else ((dd, tipo), i) :: keptFrom (i + 1) rest

/-- Specification-side: collect one maximal run of equal keys. -/
def runGroupsGo (k : String × String) (run : List Nat) :
    List ((String × String) × Nat) → List ((String × String) × List Nat)
  | [] => [(k, run)]
  | (k2, i) :: rest =>
    if k2 = k then runGroupsGo k (run ++ [i]) rest
    else (k, run) :: runGroupsGo k2 [i] rest

/-- Specification-side definition (from the specification text): group
maximal contiguous runs of equal keys, a new group starting exactly when the
key differs from the immediately preceding kept one. -/
def runGroups : List ((String × String) × Nat) → List ((String × String) × List Nat)
  | [] => []
  | (k, i) :: rest => runGroupsGo k [i] rest

/-- First-occurrence deduplication (order is irrelevant where it is used:
only the length of the deduplicated list is compared with 1, mirroring
`len(set(...)) <= 1`). -/
def dedupGo {α : Type} [DecidableEq α] : List α → List α → List α
  | [], _ => []
  | x :: rest, seen => if x ∈ seen then dedupGo rest seen else x :: dedupGo rest (seen ++ [x])

/-- First-occurrence deduplication. -/
def dedupFirst {α : Type} [DecidableEq α] (l : List α) : List α := dedupGo l []

/-- The generator `(k for k in date_type_pairs if k[0] and k[1] != "unknown")`
of `prepare_files_for_processing` (source line 175): Python truthiness of
`k[0]` drops both a missing and an empty date. -/
def keptKeys (pairs : List (Option String × String)) : List (String × String) :=
  pairs.filterMap fun p =>
    match p.1 with
    | none => none
    | some dd => if dd ≠ "" ∧ p.2 ≠ "unknown" then some (dd, p.2) else none

/-- Outcome of `prepare_files_for_processing` for one file (source lines
172-192): at most one distinct key passes the file through unchanged,
otherwise the file is split into one sub-document per group. -/
inductive PrepOutcome where
  | passthrough : PrepOutcome
  | split : List ((String × String) × List Nat) → PrepOutcome
deriving DecidableEq

/-- `prepare_files_for_processing`, per file, on the per-page tags (source
lines 172-192); the physical PDF materialisation writes exactly the pages of
each group, in order, so a group is modelled by its page-index list. -/
def prepareFileTags (pairs : List (Option String × String)) : PrepOutcome :=
  if (dedupFirst (keptKeys pairs)).length ≤ 1 then .passthrough
  else .split (groupPagesByDateAndType pairs)

-- ===== aggregated rows and the consistency reconciler (source lines 909-1001) =====

/-- Lower-case a string. -/
def pyLowerStr (s : String) : String := String.mk (s.data.map pyLower)

/-- Upper-case a string. -/
def pyUpperStr (s : String) : String := String.mk (s.data.map pyUpper)

/-- Python `str.strip()` on a string. -/
def pyStripStr (s : String) : String := String.mk (pyStrip s.data)

/-- One row of the aggregated trades table, carrying the columns the
orchestrator reads: the record kind ("Tipo"), the debit/credit flag, the
extracted value, and the enrichment columns added by `process_pdfs` (source
lines 879-885).  The `valor` field models the `valor_trades` column of
source lines 920-932: each extracted trade carries exactly one of
"Valor Operação" (futures rows) and "Valor Operação / Ajuste" (spot rows),
and the row-wise selection picks that column, so the single field holds the
selected value.  Extractor-specific columns that nothing downstream reads
are not carried. -/
structure TradeRow where
  tipo : String
  dc : String
  valor : ℚ
  broker : String
  date : String
  invoice : String
  cpf : String
deriving DecidableEq

/-- The `valor_trades_consistency` column (source lines 934-939): start from
`valor_trades` and multiply by -1 exactly on the rows where the trimmed
lower-cased kind is "bm&f" and the trimmed upper-cased D/C flag is "C". -/
def valorTradesConsistency (t : TradeRow) : ℚ :=
  if pyStripStr (pyLowerStr t.tipo) = "bm&f" ∧ pyStripStr (pyUpperStr t.dc) = "C" then
    qNeg t.valor
  else t.valor

/-- Specification-side formula for claim C7, following the claim words: the
comparable value negates exactly when the normalised kind is futures and the
D/C flag is the literal string "C". -/
def claimComparableC7 (t : TradeRow) : ℚ :=
  if pyStripStr (pyLowerStr t.tipo) = "bm&f" ∧ t.dc = "C" then qNeg t.valor
  else t.valor

/-- One row of the aggregated summaries table: the grouping columns plus the
extracted summary mapping (canonical label to magnitude; the D/C letter
columns, which the reconciler never reads, are not carried). -/
structure SummaryRow where
  invoice : String
  broker : String
  tipo : String
  fields : List (String × ℚ)
deriving DecidableEq

/-- Association lookup in a summary mapping (a dataframe cell: `none` models
the NaN of a missing column in that row). -/
def lookupField : List (String × ℚ) → String → Option ℚ
  | [], _ => none
  | (k, v) :: rest, c => if k = c then some v else lookupField rest c

/-- The grouping key `(invoice, broker, Tipo)` of a trade row (source line
957). -/
def tradeKey (t : TradeRow) : String × String × String := (t.invoice, t.broker, t.tipo)

/-- The grouping key of a summary row (source line 974). -/
def summaryKey (s : SummaryRow) : String × String × String := (s.invoice, s.broker, s.tipo)

/-- The grouped sum of `valor_trades_consistency` for one key (source lines
957-961); a key with no trade sums over the empty list, giving 0, exactly
the value the left-merge plus `fillna(0)` (source lines 986-989) assigns. -/
def sumComparable (trades : List TradeRow) (k : String × String × String) : ℚ :=
  qSum ((trades.filter fun t => tradeKey t = k).map valorTradesConsistency)

/-- Column presence in the summaries dataframe: a dataframe has the column
when some row has the key. -/
def summaryHasCol (summaries : List SummaryRow) (c : String) : Bool :=
  summaries.any fun s => (lookupField s.fields c).isSome

/-- The declared-total column selection of source lines 966-971: the first
of "Valor das operações", "Valor dos negócios" present as a column. -/
def valorColOf (summaries : List SummaryRow) : Option String :=
  if summaryHasCol summaries "Valor das operações" then some "Valor das operações"
  else if summaryHasCol summaries "Valor dos negócios" then some "Valor dos negócios"
  else none

/-- One row of the consistency table (source lines 985-996). -/
structure ConsistencyRow where
  invoice : String
  broker : String
  tipo : String
  tradeTotal : ℚ
  declared : ℚ
  diff : ℚ
  status : String
deriving DecidableEq

/-- The consistency reconciliation of `process_directory` (source lines
949-1001): pick the declared-total column (empty table when none exists,
line 999), collect all keys from both sides (`pd.concat` +
`drop_duplicates`, lines 978-983), left-merge the per-key trade totals and
the summary rows (lines 985-987; a key with several summary rows yields
several merged rows), fill the missing sides with 0 (lines 989-990), then
round the difference to 2 decimals and set the status with the
`abs(x) < 0.01` tolerance (lines 991-996).  Keys are kept in first-occurrence
order rather than the sorted order of `pandas.groupby`; every claim is
row-wise, so the order is immaterial. -/
def consistencyRows (trades : List TradeRow) (summaries : List SummaryRow) :
    List ConsistencyRow :=
  match valorColOf summaries with
  | none => []
  | some col =>
    let tKeys := dedupFirst (trades.map tradeKey)
    let allKeys := dedupFirst (tKeys ++ summaries.map summaryKey)
    allKeys.flatMap fun k =>
      let tt := sumComparable trades k
      let ms := summaries.filter fun s => summaryKey s = k
      let decls := if ms.isEmpty then [(0 : ℚ)]
        else ms.map fun s => (lookupField s.fields col).getD 0
      decls.map fun dv =>
        let df := round2 (qSub tt dv)
        { invoice := k.1, broker := k.2.1, tipo := k.2.2,
          tradeTotal := tt, declared := dv, diff := df,
          status := if qAbs df < Rat.divInt 1 100 then "OK" else "Inconsistência" }

-- ===== the orchestrator `process_pdfs` (source lines 826-907) =====

/-- The parser class selected for one document.  `XPAvistaParser`,
`BTGAvistaParser` and `AVistaParser` all inherit the `GenericParser`
behaviour unchanged (source lines 510-512, 561-562, 735-736) and are
collapsed into `genericAvista`; `bmfBase` is the base `BMFParser` used as
the fallback for a futures or unknown classification with no registered
entry. -/
inductive PKind where
  | genericAvista : PKind
  | bmfBase : PKind
  | xpBmf : PKind
  | btgBmf : PKind
deriving DecidableEq

/-- `BROKER_TYPE_TO_PARSER` (source lines 834-842). -/
def brokerTypeTable : List ((String × String) × PKind) :=
  [(("XP", "avista"), .genericAvista), (("XP", "bmf"), .xpBmf),
   (("BTG", "avista"), .genericAvista), (("BTG", "bmf"), .btgBmf),
   (("ITAU", "avista"), .genericAvista), (("AGORA", "avista"), .genericAvista)]

/-- Dictionary lookup in the parser table. -/
def tblLookup (k : String × String) : List ((String × String) × PKind) → Option PKind
  | [] => none
  | (k2, v) :: rest => if k = k2 then some v else tblLookup k rest

/-- The `BROKER_TYPE_TO_PARSER.get((broker, type), fallback)` dispatch
(source lines 859-862): a missing entry falls back to `AVistaParser` for an
"avista" classification and to the base `BMFParser` otherwise. -/
def selectPKind (broker itype : String) : PKind :=
  match tblLookup (broker, itype) brokerTypeTable with
  | some k => k
  | none => if itype = "avista" then .genericAvista else .bmfBase

/-- `TradeProcessor.PARSERS` (source lines 827-832), in table order. -/
def parsersList : List BrokerCfg := [btgConfig, itauConfig, agoraConfig, xpConfig]

/-- `TradeProcessor._match_broker_by_signature` (source lines 902-907). -/
def matchBrokerBySignature (text : List Char) (cfg : BrokerCfg) : Bool :=
  cfg.signaturePats.any fun p => searchPat text p

/-- The first-match-wins broker scan of `process_pdfs` (source lines
853-867). -/
def matchedConfig (text : List Char) : Option BrokerCfg :=
  parsersList.find? fun cfg => matchBrokerBySignature text cfg

/-- Broker matching followed by parser-class dispatch (source lines 853-867):
the matched profile together with the parser class selected from the
upper-cased broker name and the classification of the text. -/
def dispatchDoc (text : List Char) : Option (BrokerCfg × PKind) :=
  match matchedConfig text with
  | none => none
  | some cfg => some (cfg, selectPKind (pyUpperStr cfg.name) (classifyInvoiceType text))

/-- The result dict of a successful `parse_pdf` (source lines 291-298):
broker, invoice, date, client tax id, the extracted trades, and the summary
mapping. -/
structure ParseOut where
  broker : String
  invoice : String
  date : String
  clientCpf : String
  trades : List TradeRow
  summary : List (String × ℚ)
deriving DecidableEq

/-- A Python exception, as far as the per-document handler observes it. -/
inductive PyErr where
  | typeError : PyErr
  | other : PyErr
deriving DecidableEq

/-- The behaviour of the non-raising parser classes on a document: the
orchestration claims hold for every such behaviour, so the theorems
quantify over it. -/
def ParseBeh : Type := PKind → BrokerCfg → List Char → Except PyErr ParseOut

/-- `matched_parser.parse_pdf(file_path)` (source line 873) for the selected
parser class.  `BMFParser.parse_pdf` (source lines 540-556) calls
`self._extract_summary_values(text, file_path)` with two arguments while the
inherited `GenericParser._extract_summary_values` (source line 417) accepts
only the text, so for the base `BMFParser` the call raises `TypeError` on
every input before the result dict is built, modelled as `.error .typeError`;
the subclasses that override the method with a two-argument variant are the
behaviour `f` passed in. -/
def parseOf (f : ParseBeh) (kind : PKind) (cfg : BrokerCfg) (text : List Char) :
    Except PyErr ParseOut :=
  match kind with
  | .bmfBase => .error .typeError
  | k => f k cfg text

/-- The mutable state of the `process_pdfs` loop (source lines 845-900):
the two accumulated row lists and the Python loop variable `trade` of
source line 879, which retains the last trade dict of the most recent
document that produced one (`none` models the unbound state before any
trade was seen). -/
structure BatchState where
  allTrades : List TradeRow
  allSummaries : List SummaryRow
  tradeVar : Option TradeRow
deriving DecidableEq

/-- The `trade.update({...})` enrichment (source lines 879-885). -/
def enrich (r : ParseOut) (t : TradeRow) : TradeRow :=
  { t with broker := r.broker, date := r.date, invoice := r.invoice, cpf := r.clientCpf }

/-- The `summary_row` dict (source lines 889-894), whose record-kind tag
comes from `trade.get("Tipo", "Unknown")`: every trade dict built by the
extractors carries a "Tipo" key, so the tag is the `tipo` field of whatever
trade dict the loop variable holds. -/
def mkSummaryRow (r : ParseOut) (tipo : String) : SummaryRow :=
  { invoice := r.invoice, broker := r.broker, tipo := tipo, fields := r.summary }

/-- The value of the loop variable `trade` after a document's trades are
appended (source line 879): the last enriched trade of this document when it
has any, otherwise whatever the variable held before. -/
def tvOf (s : BatchState) (r : ParseOut) : Option TradeRow :=
  match (r.trades.map (enrich r)).getLast? with
  | some t => some t
  | none => s.tradeVar

/-- The per-document state update after a successful parse (source lines
875-895): append the enriched trades one by one (updating the loop variable
`trade` to the last of them, `tvOf`), then, when the summary is non-empty,
build the summary row from `trade.get("Tipo", ...)` — reading the loop
variable with no trade ever seen raises `UnboundLocalError` at source line
892, caught by the per-document handler, so the summary row is dropped
while the already-appended trades remain (the `none` branch). -/
def stepParsed (s : BatchState) (r : ParseOut) : BatchState :=
  if r.summary.isEmpty then
    { allTrades := s.allTrades ++ r.trades.map (enrich r),
      allSummaries := s.allSummaries,
      tradeVar := tvOf s r }
  else
    match tvOf s r with
    | none =>
      { allTrades := s.allTrades ++ r.trades.map (enrich r),
        allSummaries := s.allSummaries,
        tradeVar := tvOf s r }
    | some t =>
      { allTrades := s.allTrades ++ r.trades.map (enrich r),
        allSummaries := s.allSummaries ++ [mkSummaryRow r t.tipo],
        tradeVar := tvOf s r }

/-- One iteration of the `process_pdfs` loop (source lines 848-898): match a
broker (skip the document when none matches, lines 869-871), dispatch the
parser class and parse (a parse exception skips the document, line 897),
then apply `stepParsed`. -/
def stepDoc (f : ParseBeh) (s : BatchState) (text : List Char) : BatchState :=
  match dispatchDoc text with
  | none => s
  | some (cfg, kind) =>
    match parseOf f kind cfg text with
    | .error _ => s
    | .ok r => stepParsed s r

/-- The full `process_pdfs` loop over a batch. -/
def runBatch (f : ParseBeh) (docs : List (List Char)) : BatchState :=
  docs.foldl (stepDoc f) { allTrades := [], allSummaries := [], tradeVar := none }

/-- `TradeProcessor.process_pdfs` (source lines 844-900): the two aggregated
collections. -/
def processPdfs (f : ParseBeh) (docs : List (List Char)) : List TradeRow × List SummaryRow :=
  ((runBatch f docs).allTrades, (runBatch f docs).allSummaries)

-- ===== concrete inputs for the witnesses =====

/-- A document text matching the BTG signature whose classification is
unknown. -/
def c2ExDoc : List Char := ("BTG Pactual hello").data

/-- A document text matching the ITAU signature whose classification is
futures. -/
def c9ExDoc : List Char := ("Itaú Corretora\nvencimento").data

/-- A document text matching the BTG signature whose classification is
spot. -/
def c10ExDoc : List Char := ("BTG Pactual\nNegócios realizados").data

/-- A parser behaviour that always raises. -/
def alwaysErrParse : ParseBeh := fun _ _ _ => .error .other

/-- A parse result with a non-empty summary and no trades. -/
def c10ExParseOut : ParseOut :=
  { broker := "BTG", invoice := "111", date := "01/02/2023", clientCpf := "",
    trades := [], summary := [("Corretagem", qDec 1500 2)] }

/-- A parser behaviour returning `c10ExParseOut` on every document. -/
def c10ExParse : ParseBeh := fun _ _ _ => .ok c10ExParseOut

/-- A trade row left behind by an earlier document of the batch. -/
def c10ExTrade : TradeRow :=
  { tipo := "A Vista", dc := "C", valor := qDec 100 0,
    broker := "B", date := "02/02/2023", invoice := "9", cpf := "" }

/-- A batch state in which an earlier document produced `c10ExTrade`. -/
def c10ExState : BatchState :=
  { allTrades := [c10ExTrade], allSummaries := [], tradeVar := some c10ExTrade }

/-- One spot trade row for the reconciliation witness. -/
def c1ExTrades : List TradeRow :=
  [{ tipo := "A Vista", dc := "D", valor := qDec 50000 2,
     broker := "X", date := "01/02/2023", invoice := "123", cpf := "" }]

/-- One summary row declaring 499.99 for the same key. -/
def c1ExSums : List SummaryRow :=
  [{ invoice := "123", broker := "X", tipo := "A Vista",
     fields := [("Valor das operações", qDec 49999 2)] }]

/-- The consistency row the reconciler produces for the key
`("123", "X", "A Vista")`: difference 0.01, status Inconsistent. -/
def c1ExRow : ConsistencyRow :=
  { invoice := "123", broker := "X", tipo := "A Vista",
    tradeTotal := qDec 50000 2, declared := qDec 49999 2,
    diff := Rat.divInt 1 100, status := "Inconsistência" }

/-- The trade the XP/BTG/ITAU token layout produces from the negative-token
data line: the minus signs flow through into the quantity and the value. -/
def negScenarioTrade : AvistaTrade :=
  { negociacao := "B3", cv := "RV", tipoMercado := "LISTADO",
    especificacao := "C VISTA", quantidade := -100,
    preco := qDec 2850 2, valor := qNeg (qDec 285000 2), dc := "D", tipo := "A Vista" }

/-- The futures trade row with a lower-case "c" flag used against claim C7. -/
def c7ExTrade : TradeRow :=
  { tipo := "BM&F", dc := "c", valor := qDec 5 0,
    broker := "X", date := "01/02/2023", invoice := "7", cpf := "" }

-- ===== THEOREMS =====

theorem den_cast_ne (a : ℚ) : ((a.den : ℚ)) ≠ 0 := by
  exact_mod_cast a.den_ne_zero

theorem qAdd_eq (a b : ℚ) : qAdd a b = a + b := by
  unfold qAdd
  rw [Rat.divInt_eq_div]
  push_cast
  conv_rhs => rw [← Rat.num_div_den a, ← Rat.num_div_den b]
  rw [div_add_div _ _ (den_cast_ne a) (den_cast_ne b)]
  ring_nf

theorem qSub_eq (a b : ℚ) : qSub a b = a - b := by
  unfold qSub
  rw [Rat.divInt_eq_div]
  push_cast
  conv_rhs => rw [← Rat.num_div_den a, ← Rat.num_div_den b]
  rw [div_sub_div _ _ (den_cast_ne a) (den_cast_ne b)]
  ring_nf

theorem qNeg_eq (a : ℚ) : qNeg a = -a := by
  unfold qNeg
  rw [Rat.divInt_eq_div]
  push_cast
  rw [neg_div, Rat.num_div_den]

theorem qAbs_eq (a : ℚ) : qAbs a = |a| := by
  unfold qAbs
  rw [Rat.divInt_eq_div]
  push_cast [Int.cast_natAbs]
  rw [← abs_of_pos (show (0 : ℚ) < a.den by exact_mod_cast a.den_pos), ← abs_div,
    Rat.num_div_den]

theorem qSum_aux (l : List ℚ) (init : ℚ) : l.foldl qAdd init = init + l.sum := by
  induction l generalizing init with
  | nil => simp
  | cons x xs ih => simp [List.foldl_cons, qAdd_eq, ih, add_assoc]

theorem qSum_eq (l : List ℚ) : qSum l = l.sum := by
  simp [qSum, qSum_aux]

theorem qDec_eq (m : Int) (e : Nat) : qDec m e = (m : ℚ) / (10 ^ e : ℕ) := by
  unfold qDec
  rw [Rat.divInt_eq_div]
  norm_num

-- lookup tables: no entry maps to the capital letter M

theorem chLookup_mem {c v : Char} {l : List (Char × Char)}
    (h : chLookup c l = some v) : (c, v) ∈ l := by
  induction l with
  | nil => simp [chLookup] at h
  | cons p rest ih =>
    rcases p with ⟨k, w⟩
    by_cases hc : c = k
    · subst hc
      simp [chLookup] at h
      simp [h]
    · simp [chLookup, hc] at h
      exact List.mem_cons_of_mem _ (ih h)

theorem pyLower_ne_M (c : Char) : pyLower c ≠ 'M' := by
  unfold pyLower
  cases h : chLookup c lowerPairs with
  | none =>
    intro hc
    simp only [Option.getD_none] at hc
    subst hc
    simp [chLookup, lowerPairs] at h
  | some v =>
    have hmem := chLookup_mem h
    have hall : ∀ p ∈ lowerPairs, p.2 ≠ 'M' := by decide
    simpa using hall _ hmem

theorem charDecomp_not_M (c : Char) : 'M' ∉ charDecomp (pyLower c) := by
  unfold charDecomp
  cases h : chLookup (pyLower c) decompPairs with
  | none =>
    simpa using fun hc => pyLower_ne_M c hc.symm
  | some v =>
    have hmem := chLookup_mem h
    have hall : ∀ p ∈ decompPairs, p.2 ≠ 'M' := by decide
    simpa using fun hc => hall _ hmem hc.symm

theorem normalizeText_not_M (t : List Char) : 'M' ∉ normalizeText t := by
  unfold normalizeText removeAccents
  intro hmem
  rw [List.mem_flatMap] at hmem
  rcases hmem with ⟨c, hc, hMc⟩
  rw [List.mem_map] at hc
  rcases hc with ⟨d, _, rfl⟩
  exact charDecomp_not_M d hMc

theorem startsWithB_head_mem {p : Char} {ps l : List Char}
    (h : startsWithB (p :: ps) l = true) : p ∈ l := by
  cases l with
  | nil => simp [startsWithB] at h
  | cons c cs =>
    simp [startsWithB] at h
    simp [h.1]

theorem containsTok_head_mem {hay : List Char} {p : Char} {ps : List Char}
    (h : containsTok hay (p :: ps) = true) : p ∈ hay := by
  induction hay with
  | nil => simp [containsTok] at h
  | cons c cs ih =>
    unfold containsTok at h
    rcases Bool.or_eq_true_iff.mp h with h1 | h2
    · exact startsWithB_head_mem h1
    · exact List.mem_cons_of_mem _ (ih h2)

theorem containsTok_Mercadoria_false (t : List Char) :
    containsTok (normalizeText t) ("Mercadoria").data = false := by
  by_contra h
  rw [Bool.not_eq_false] at h
  exact normalizeText_not_M t (containsTok_head_mem h)

/-- C3 counterexample: the input text "negocios realizados mercadoria"
contains a spot phrase together with the futures vocabulary word
"mercadoria", yet `classify_invoice_type` classifies it as Spot ("avista"),
because the futures guard term "Mercadoria" is compared with a capital M
against a lower-cased text and thus never fires. -/
theorem classify_mercadoria_counterexample :
    classifyInvoiceType ("negocios realizados mercadoria").data = "avista" := by
  decide

/-- C3 (amended): `classify_invoice_type` returns "avista" exactly when the
accent-stripped lower-cased text contains one of the three spot phrases and
does not contain the substring "c/v mercadoria"; the second guard term
"Mercadoria" is dead code because the text is lower-cased first. -/
theorem classify_not_avista_of_cond_false {t : List Char}
    (hc : ((spotTerms.any fun x => containsTok (normalizeText t) x) &&
      !(avistaGuardTerms.any fun x => containsTok (normalizeText t) x)) = false) :
    classifyInvoiceType t ≠ "avista" := by
  unfold classifyInvoiceType
  rw [hc, if_neg (by decide : ¬(false = true))]
  intro h
  split at h
  · exact absurd h (by decide)
  · split at h
    · exact absurd h (by decide)
    · exact absurd h (by decide)

theorem classify_avista_iff (t : List Char) :
    classifyInvoiceType t = "avista" ↔
      ((spotTerms.any fun x => containsTok (normalizeText t) x) = true ∧
        containsTok (normalizeText t) ("c/v mercadoria").data = false) := by
  have hM := containsTok_Mercadoria_false t
  cases hA : (spotTerms.any fun x => containsTok (normalizeText t) x) with
  | false =>
    have hc : ((spotTerms.any fun x => containsTok (normalizeText t) x) &&
        !(avistaGuardTerms.any fun x => containsTok (normalizeText t) x)) = false := by
      rw [hA]
      rfl
    constructor
    · intro h
      exact absurd h (classify_not_avista_of_cond_false hc)
    · intro h
      simp at h
  | true =>
    cases hB : containsTok (normalizeText t) ("c/v mercadoria").data with
    | false =>
      have hguard : (avistaGuardTerms.any fun x => containsTok (normalizeText t) x) = false := by
        simp [avistaGuardTerms, hM, hB]
      have hc : ((spotTerms.any fun x => containsTok (normalizeText t) x) &&
          !(avistaGuardTerms.any fun x => containsTok (normalizeText t) x)) = true := by
        rw [hA, hguard]
        rfl
      unfold classifyInvoiceType
      rw [hc, if_pos rfl]
      simp
    | true =>
      have hguard : (avistaGuardTerms.any fun x => containsTok (normalizeText t) x) = true := by
        simp [avistaGuardTerms, hB]
      have hc : ((spotTerms.any fun x => containsTok (normalizeText t) x) &&
          !(avistaGuardTerms.any fun x => containsTok (normalizeText t) x)) = false := by
        rw [hA, hguard]
        rfl
      constructor
      · intro h
        exact absurd h (classify_not_avista_of_cond_false hc)
      · intro h
        simp at h


-- ===== page grouping lemmas and claim C6 =====

theorem groupPagesGo_run (rest : List (Option String × String)) :
    ∀ (i : Nat) (k : String × String) (cp : List Nat)
      (acc : List ((String × String) × List Nat)),
      cp ≠ [] →
      groupPagesGo rest i (some k) cp acc = acc ++ runGroupsGo k cp (keptFrom i rest) := by
  induction rest with
  | nil =>
    intro i k cp acc hcp
    cases cp with
    | nil => exact absurd rfl hcp
    | cons p ps => simp [groupPagesGo, groupFlush, keptFrom, runGroupsGo]
  | cons pr rest ih =>
    intro i k cp acc hcp
    rcases pr with ⟨d, tipo⟩
    cases d with
    | none =>
      simp only [groupPagesGo, keptFrom]
      exact ih (i + 1) k cp acc hcp
    | some dd =>
      by_cases ht : tipo = "unknown"
      · simp only [groupPagesGo, keptFrom, ht, if_pos]
        exact ih (i + 1) k cp acc hcp
      · by_cases hk : (dd, tipo) = k
        · subst hk
          simp only [groupPagesGo, keptFrom, runGroupsGo, if_neg ht,
            eq_self_iff_true, if_true]
          exact ih (i + 1) (dd, tipo) (cp ++ [i]) acc (by simp)
        · have hck : ¬(some k = some (dd, tipo)) := by
            intro hcontra
            exact hk (Option.some.injEq _ _ ▸ hcontra).symm
          have hflush : groupFlush (some k) cp acc = acc ++ [(k, cp)] := by
            cases cp with
            | nil => exact absurd rfl hcp
            | cons p ps => rfl
          simp only [groupPagesGo, keptFrom, runGroupsGo, if_neg ht, if_neg hck, if_neg hk, hflush]
          rw [ih (i + 1) (dd, tipo) [i] (acc ++ [(k, cp)]) (by simp)]
          simp

theorem groupPages_runs_aux (rest : List (Option String × String)) :
    ∀ (i : Nat) (acc : List ((String × String) × List Nat)),
      groupPagesGo rest i none [] acc = acc ++ runGroups (keptFrom i rest) := by
  induction rest with
  | nil => intro i acc; simp [groupPagesGo, groupFlush, keptFrom, runGroups]
  | cons pr rest ih =>
    intro i acc
    rcases pr with ⟨d, tipo⟩
    cases d with
    | none =>
      simp only [groupPagesGo, keptFrom]
      exact ih (i + 1) acc
    | some dd =>
      by_cases ht : tipo = "unknown"
      · simp only [groupPagesGo, keptFrom, ht, if_pos]
        exact ih (i + 1) acc
      · have hck : ¬((none : Option (String × String)) = some (dd, tipo)) := by simp
        simp only [groupPagesGo, keptFrom, runGroups, if_neg ht, if_neg hck, groupFlush]
        exact groupPagesGo_run rest (i + 1) (dd, tipo) [i] acc (by simp)

/-- C6: `group_pages_by_date_and_type` drops pages with a missing date or an
unknown kind and groups exactly the maximal contiguous runs of equal
(date, kind) keys of the remaining pages, a new group starting whenever the
key differs from the immediately preceding kept one (also when that key
occurred earlier); and for the per-page tagging
[(D1, Spot), (D1, Spot), (D2, Spot), (D2, Spot)],
`prepare_files_for_processing` splits the file into exactly 2 sub-documents
of exactly 2 pages each, in original page order. -/
theorem group_pages_contiguous_runs_and_split :
    (∀ pairs : List (Option String × String),
      groupPagesByDateAndType pairs = runGroups (keptFrom 0 pairs)) ∧
    prepareFileTags [(some "D1", "avista"), (some "D1", "avista"),
        (some "D2", "avista"), (some "D2", "avista")] =
      PrepOutcome.split [(("D1", "avista"), [0, 1]), (("D2", "avista"), [2, 3])] := by
  constructor
  · intro pairs
    have h := groupPages_runs_aux pairs 0 []
    simpa [groupPagesByDateAndType] using h
  · decide

-- ===== claim C7: the futures-credit sign flip =====

/-- C7 counterexample: a futures trade whose D/C flag is the lower-case
letter "c" (the extractors store the flag token verbatim) is negated by the
code, although the claim formula — which normalises the kind but compares
the flag with the literal "C" — leaves it unchanged. -/
theorem futures_credit_lowercase_counterexample :
    valorTradesConsistency c7ExTrade = qNeg (qDec 5 0) ∧
    c7ExTrade.dc ≠ "C" ∧
    valorTradesConsistency c7ExTrade ≠ claimComparableC7 c7ExTrade :=
  ⟨by decide, by decide, by decide⟩

/-- C7 (amended): the comparable trade value equals the negation of the
extracted value exactly when the trimmed lower-cased kind is "bm&f" and the
trimmed upper-cased D/C flag is "C"; every other trade, in particular every
spot trade, keeps its extracted value unchanged. -/
theorem comparable_value_negation_iff (t : TradeRow) :
    valorTradesConsistency t =
      if pyStripStr (pyLowerStr t.tipo) = "bm&f" ∧ pyStripStr (pyUpperStr t.dc) = "C" then
        -t.valor
      else t.valor := by
  unfold valorTradesConsistency
  by_cases h : pyStripStr (pyLowerStr t.tipo) = "bm&f" ∧ pyStripStr (pyUpperStr t.dc) = "C"
  · rw [if_pos h, if_pos h, qNeg_eq]
  · rw [if_neg h, if_neg h]

-- ===== orchestrator lemmas and claims C2, C9, C10 =====

theorem pair_ne_of_snd_ne {a b c d : String} (h : b ≠ d) : (a, b) ≠ (c, d) := by
  intro he
  exact h (congrArg Prod.snd he)

theorem tblLookup_unknown (b : String) :
    tblLookup (b, "unknown") brokerTypeTable = none := by
  have h1 : ((b, "unknown") : String × String) ≠ ("XP", "avista") :=
    pair_ne_of_snd_ne (by decide)
  have h2 : ((b, "unknown") : String × String) ≠ ("XP", "bmf") :=
    pair_ne_of_snd_ne (by decide)
  have h3 : ((b, "unknown") : String × String) ≠ ("BTG", "avista") :=
    pair_ne_of_snd_ne (by decide)
  have h4 : ((b, "unknown") : String × String) ≠ ("BTG", "bmf") :=
    pair_ne_of_snd_ne (by decide)
  have h5 : ((b, "unknown") : String × String) ≠ ("ITAU", "avista") :=
    pair_ne_of_snd_ne (by decide)
  have h6 : ((b, "unknown") : String × String) ≠ ("AGORA", "avista") :=
    pair_ne_of_snd_ne (by decide)
  simp [tblLookup, brokerTypeTable, h1, h2, h3, h4, h5, h6]

theorem selectPKind_unknown (b : String) : selectPKind b "unknown" = PKind.bmfBase := by
  unfold selectPKind
  rw [tblLookup_unknown]
  decide

theorem stepDoc_unknown (f : ParseBeh) (d : List Char)
    (hcls : classifyInvoiceType d = "unknown") (s : BatchState) : stepDoc f s d = s := by
  have hd : dispatchDoc d = none ∨ ∃ cfg, dispatchDoc d = some (cfg, PKind.bmfBase) := by
    unfold dispatchDoc
    cases hm : matchedConfig d with
    | none => exact Or.inl rfl
    | some cfg =>
      refine Or.inr ⟨cfg, ?_⟩
      show some (cfg, selectPKind (pyUpperStr cfg.name) (classifyInvoiceType d)) = _
      rw [hcls, selectPKind_unknown]
  rcases hd with h | ⟨cfg, h⟩
  · unfold stepDoc
    rw [h]
  · unfold stepDoc
    rw [h]
    rfl

theorem runBatch_skip (f : ParseBeh) (docs1 docs2 : List (List Char)) (d : List Char)
    (hd : ∀ s, stepDoc f s d = s) :
    runBatch f (docs1 ++ d :: docs2) = runBatch f (docs1 ++ docs2) := by
  unfold runBatch
  rw [List.foldl_append, List.foldl_append, List.foldl_cons, hd]

/-- C2: a document whose text classifies as "unknown" contributes nothing:
whether or not a brokerage signature matches its text (no match skips it;
a match dispatches the fallback base `BMFParser`, whose `parse_pdf` always
raises a `TypeError` that the per-document handler catches), the batch
output with the document is identical to the batch output without it, for
the trades, the summaries, and hence the consistency table; no exception
escapes. -/
theorem unknown_doc_excluded (f : ParseBeh) (docs1 docs2 : List (List Char)) (d : List Char)
    (hcls : classifyInvoiceType d = "unknown") :
    processPdfs f (docs1 ++ d :: docs2) = processPdfs f (docs1 ++ docs2) ∧
    consistencyRows (processPdfs f (docs1 ++ d :: docs2)).1
        (processPdfs f (docs1 ++ d :: docs2)).2 =
      consistencyRows (processPdfs f (docs1 ++ docs2)).1
        (processPdfs f (docs1 ++ docs2)).2 := by
  have hb := runBatch_skip f docs1 docs2 d (stepDoc_unknown f d hcls)
  constructor
  · unfold processPdfs
    rw [hb]
  · unfold processPdfs
    rw [hb]

theorem unknown_doc_excluded_witness :
    classifyInvoiceType c2ExDoc = "unknown" ∧
    processPdfs alwaysErrParse ([] ++ c2ExDoc :: []) = processPdfs alwaysErrParse ([] ++ []) :=
  ⟨by decide, (unknown_doc_excluded alwaysErrParse [] [] c2ExDoc (by decide)).1⟩

theorem selectPKind_no_entry (b itype : String)
    (hl : tblLookup (b, itype) brokerTypeTable = none) (hi : itype ≠ "avista") :
    selectPKind b itype = PKind.bmfBase := by
  unfold selectPKind
  rw [hl]
  simp [hi]

theorem stepDoc_bmfBase (f : ParseBeh) (d : List Char) (cfg : BrokerCfg)
    (hm : matchedConfig d = some cfg)
    (hsel : selectPKind (pyUpperStr cfg.name) (classifyInvoiceType d) = PKind.bmfBase)
    (s : BatchState) : stepDoc f s d = s := by
  have hd : dispatchDoc d = some (cfg, PKind.bmfBase) := by
    unfold dispatchDoc
    rw [hm]
    show some (cfg, selectPKind (pyUpperStr cfg.name) (classifyInvoiceType d)) = _
    rw [hsel]
  unfold stepDoc
  rw [hd]
  rfl

/-- C9: a matched broker with no futures entry in `BROKER_TYPE_TO_PARSER`
(ITAU and AGORA in particular) and a futures classification dispatches the
fallback base `BMFParser`, whose `parse_pdf` raises a `TypeError` on every
input (it passes two arguments to the inherited one-argument
`_extract_summary_values`); the per-document handler catches it, so such a
document contributes no trades and no summary: the batch output with the
document equals the batch output without it. -/
theorem futures_fallback_raises :
    selectPKind "ITAU" "bmf" = PKind.bmfBase ∧
    selectPKind "AGORA" "bmf" = PKind.bmfBase ∧
    (∀ (f : ParseBeh) (cfg : BrokerCfg) (text : List Char),
      parseOf f PKind.bmfBase cfg text = Except.error PyErr.typeError) ∧
    (∀ (f : ParseBeh) (docs1 docs2 : List (List Char)) (d : List Char) (cfg : BrokerCfg),
      matchedConfig d = some cfg →
      classifyInvoiceType d = "bmf" →
      tblLookup (pyUpperStr cfg.name, "bmf") brokerTypeTable = none →
      processPdfs f (docs1 ++ d :: docs2) = processPdfs f (docs1 ++ docs2)) := by
  refine ⟨by decide, by decide, fun f cfg text => rfl, ?_⟩
  intro f docs1 docs2 d cfg hm hcls hl
  have hsel : selectPKind (pyUpperStr cfg.name) (classifyInvoiceType d) = PKind.bmfBase := by
    rw [hcls]
    exact selectPKind_no_entry _ _ hl (by decide)
  unfold processPdfs
  rw [runBatch_skip f docs1 docs2 d (stepDoc_bmfBase f d cfg hm hsel)]

theorem futures_fallback_raises_witness :
    matchedConfig c9ExDoc = some itauConfig ∧
    classifyInvoiceType c9ExDoc = "bmf" ∧
    processPdfs alwaysErrParse ([] ++ c9ExDoc :: []) = processPdfs alwaysErrParse ([] ++ []) :=
  ⟨by decide, by decide,
    futures_fallback_raises.2.2.2 alwaysErrParse [] [] c9ExDoc itauConfig (by decide) (by decide)
      (by decide)⟩

theorem stepParsed_tradeVar_inv (s : BatchState) (r : ParseOut)
    (h : s.tradeVar = s.allTrades.getLast?) :
    (stepParsed s r).tradeVar = (stepParsed s r).allTrades.getLast? := by
  unfold stepParsed tvOf
  cases henr : (r.trades.map (enrich r)).getLast? with
  | none =>
    have hnil : r.trades.map (enrich r) = [] := List.getLast?_eq_none_iff.mp henr
    simp only [hnil, List.getLast?_nil, List.append_nil]
    split
    · exact h
    · split
      · exact h
      · exact h
  | some t =>
    have hlast : (s.allTrades ++ r.trades.map (enrich r)).getLast? = some t := by
      rw [List.getLast?_append, henr]
      rfl
    simp only [henr]
    split
    · simpa using hlast.symm
    · simpa using hlast.symm

theorem stepDoc_tradeVar_inv (f : ParseBeh) (d : List Char) (s : BatchState)
    (h : s.tradeVar = s.allTrades.getLast?) :
    (stepDoc f s d).tradeVar = (stepDoc f s d).allTrades.getLast? := by
  unfold stepDoc
  cases hdis : dispatchDoc d with
  | none => exact h
  | some p =>
    rcases p with ⟨cfg, kind⟩
    show (match parseOf f kind cfg d with
        | Except.error _ => s
        | Except.ok r => stepParsed s r).tradeVar =
      (match parseOf f kind cfg d with
        | Except.error _ => s
        | Except.ok r => stepParsed s r).allTrades.getLast?
    cases parseOf f kind cfg d with
    | error e => exact h
    | ok r => exact stepParsed_tradeVar_inv s r h

theorem runBatch_tradeVar (f : ParseBeh) (docs : List (List Char)) :
    (runBatch f docs).tradeVar = (runBatch f docs).allTrades.getLast? := by
  have hgen : ∀ (l : List (List Char)) (s : BatchState),
      s.tradeVar = s.allTrades.getLast? →
      (l.foldl (stepDoc f) s).tradeVar = (l.foldl (stepDoc f) s).allTrades.getLast? := by
    intro l
    induction l with
    | nil => intro s h; exact h
    | cons d rest ih =>
      intro s h
      exact ih _ (stepDoc_tradeVar_inv f d s h)
  exact hgen docs _ rfl

theorem stepDoc_parsed (f : ParseBeh) (s : BatchState) (d : List Char)
    (cfg : BrokerCfg) (kind : PKind) (r : ParseOut)
    (hdis : dispatchDoc d = some (cfg, kind))
    (hpar : parseOf f kind cfg d = Except.ok r) :
    stepDoc f s d = stepParsed s r := by
  unfold stepDoc
  rw [hdis]
  show (match parseOf f kind cfg d with
    | Except.error _ => s
    | Except.ok r => stepParsed s r) = stepParsed s r
  rw [hpar]

theorem stepDoc_zero_trades (f : ParseBeh) (s : BatchState) (d : List Char)
    (cfg : BrokerCfg) (kind : PKind) (r : ParseOut)
    (hdis : dispatchDoc d = some (cfg, kind))
    (hpar : parseOf f kind cfg d = Except.ok r)
    (ht : r.trades = []) (hs : r.summary ≠ []) :
    (s.tradeVar = none → stepDoc f s d = s) ∧
    (∀ t : TradeRow, s.tradeVar = some t →
      stepDoc f s d =
        { allTrades := s.allTrades,
          allSummaries := s.allSummaries ++ [mkSummaryRow r t.tipo],
          tradeVar := s.tradeVar }) := by
  have hse : r.summary.isEmpty = false := by
    cases hsum : r.summary with
    | nil => exact absurd hsum hs
    | cons a l => rfl
  rw [stepDoc_parsed f s d cfg kind r hdis hpar]
  rcases s with ⟨sa, sb, sc⟩
  unfold stepParsed tvOf
  simp only [ht, List.map_nil, List.append_nil, List.getLast?_nil, hse,
    Bool.false_eq_true, if_false]
  constructor
  · intro h0
    rw [h0]
  · intro t ht2
    rw [ht2]

/-- C10: for a document parsed with a non-empty summary and zero trades, the
summary row's record-kind tag is not derived from that document: the batch
loop variable `trade` always holds the last trade appended so far (first
conjunct), so the tag is read from the last trade of an earlier document of
the batch; and when no trade was seen yet, reading the unbound variable
raises, the per-document handler catches it, the state is unchanged, and
the document's summary never appears in the output (second conjunct). -/
theorem summary_tipo_stale :
    (∀ (f : ParseBeh) (docs : List (List Char)),
      (runBatch f docs).tradeVar = (runBatch f docs).allTrades.getLast?) ∧
    (∀ (f : ParseBeh) (s : BatchState) (d : List Char) (cfg : BrokerCfg) (kind : PKind)
        (r : ParseOut),
      dispatchDoc d = some (cfg, kind) →
      parseOf f kind cfg d = Except.ok r →
      r.trades = [] → r.summary ≠ [] →
      ((s.tradeVar = none → stepDoc f s d = s) ∧
       (∀ t : TradeRow, s.tradeVar = some t →
         stepDoc f s d =
           { allTrades := s.allTrades,
             allSummaries := s.allSummaries ++ [mkSummaryRow r t.tipo],
             tradeVar := s.tradeVar }))) :=
  ⟨runBatch_tradeVar, stepDoc_zero_trades⟩

theorem summary_tipo_stale_witness :
    stepDoc c10ExParse c10ExState c10ExDoc =
      { allTrades := c10ExState.allTrades,
        allSummaries := c10ExState.allSummaries ++ [mkSummaryRow c10ExParseOut c10ExTrade.tipo],
        tradeVar := c10ExState.tradeVar } ∧
    stepDoc c10ExParse { allTrades := [], allSummaries := [], tradeVar := none } c10ExDoc =
      { allTrades := [], allSummaries := [], tradeVar := none } :=
  ⟨(summary_tipo_stale.2 c10ExParse c10ExState c10ExDoc btgConfig PKind.genericAvista
      c10ExParseOut (by decide) rfl rfl (by decide)).2 c10ExTrade rfl,
   (summary_tipo_stale.2 c10ExParse ⟨[], [], none⟩ c10ExDoc btgConfig PKind.genericAvista
      c10ExParseOut (by decide) rfl rfl (by decide)).1 rfl⟩

-- ===== reconciliation lemmas and claim C1 =====

theorem status_ok_iff (df : ℚ) :
    ((if qAbs df < Rat.divInt 1 100 then "OK" else "Inconsistência") = "OK") ↔
      |df| < 1 / 100 := by
  have hq : (qAbs df < Rat.divInt 1 100) ↔ |df| < 1 / 100 := by
    rw [qAbs_eq, Rat.divInt_eq_div]
    norm_num
  by_cases h : qAbs df < Rat.divInt 1 100
  · rw [if_pos h]
    exact ⟨fun _ => hq.mp h, fun _ => rfl⟩
  · rw [if_neg h]
    constructor
    · intro hcontra
      exact absurd hcontra (by decide)
    · intro hlt
      exact absurd (hq.mpr hlt) h

theorem status_boundary (df : ℚ) (h1 : df = 1 / 100) :
    (if qAbs df < Rat.divInt 1 100 then "OK" else "Inconsistência") = "Inconsistência" := by
  subst h1
  have hn : ¬(qAbs ((1 : ℚ) / 100) < Rat.divInt 1 100) := by
    rw [qAbs_eq, Rat.divInt_eq_div, abs_of_pos (by norm_num : (0 : ℚ) < 1 / 100)]
    push_cast
    norm_num
  rw [if_neg hn]

/-- C1: every row of the consistency table of `process_directory` satisfies:
its difference is the round-half-even 2-decimal rounding of the summed
comparable trade values of its (invoice, broker, kind) key minus its
declared value; its status is "OK" exactly when the absolute difference is
strictly below 0.01 (so a difference of exactly 0.01 is Inconsistent); and a
key missing from one side is joined with 0: the trade total is the sum over
the (possibly empty) matching trades, and a key with no summary row gets
declared value 0. -/
theorem consistency_row_correct (trades : List TradeRow) (summaries : List SummaryRow)
    (row : ConsistencyRow) (hrow : row ∈ consistencyRows trades summaries) :
    row.diff = round2 (row.tradeTotal - row.declared) ∧
    row.tradeTotal = sumComparable trades (row.invoice, row.broker, row.tipo) ∧
    (row.status = "OK" ↔ |row.diff| < 1 / 100) ∧
    (row.diff = 1 / 100 → row.status = "Inconsistência") ∧
    ((∀ s ∈ summaries, summaryKey s ≠ (row.invoice, row.broker, row.tipo)) →
      row.declared = 0) := by
  unfold consistencyRows at hrow
  cases hcol : valorColOf summaries with
  | none =>
    rw [hcol] at hrow
    simp at hrow
  | some col =>
    rw [hcol] at hrow
    simp only [List.mem_flatMap, List.mem_map] at hrow
    obtain ⟨k, hk, dv, hdv, hroweq⟩ := hrow
    subst hroweq
    refine ⟨?_, rfl, ?_, ?_, ?_⟩
    · show round2 (qSub (sumComparable trades k) dv) =
        round2 (sumComparable trades k - dv)
      rw [qSub_eq]
    · exact status_ok_iff (round2 (qSub (sumComparable trades k) dv))
    · exact status_boundary (round2 (qSub (sumComparable trades k) dv))
    · intro hall
      have hms : (summaries.filter fun s => summaryKey s = k) = [] := by
        rw [List.filter_eq_nil_iff]
        intro s hsmem
        simp only [decide_eq_true_eq]
        exact hall s hsmem
      rw [hms] at hdv
      simpa using hdv

theorem consistency_row_correct_witness :
    c1ExRow.diff = round2 (c1ExRow.tradeTotal - c1ExRow.declared) ∧
    c1ExRow.tradeTotal = sumComparable c1ExTrades (c1ExRow.invoice, c1ExRow.broker, c1ExRow.tipo) ∧
    (c1ExRow.status = "OK" ↔ |c1ExRow.diff| < 1 / 100) ∧
    (c1ExRow.diff = 1 / 100 → c1ExRow.status = "Inconsistência") ∧
    ((∀ s ∈ c1ExSums, summaryKey s ≠ (c1ExRow.invoice, c1ExRow.broker, c1ExRow.tipo)) →
      c1ExRow.declared = 0) :=
  consistency_row_correct c1ExTrades c1ExSums c1ExRow (by decide)

-- ===== remaining numeric bridges =====

theorem qMulNat_eq (a : ℚ) (n : Nat) : qMulNat a n = a * n := by
  unfold qMulNat
  rw [Rat.divInt_eq_div]
  push_cast
  conv_rhs => rw [← Rat.num_div_den a]
  rw [div_mul_eq_mul_div]
  norm_cast

theorem qDivNat_eq (a : ℚ) (n : Nat) : qDivNat a n = a / n := by
  unfold qDivNat
  rw [Rat.divInt_eq_div]
  conv_rhs => rw [← Rat.num_div_den a]
  rw [div_div]
  norm_cast

-- ===== character provenance through the string primitives =====

theorem splitlinesGo_chars : ∀ (l cur : List Char) (flag : Bool),
    ∀ x ∈ splitlinesGo l cur flag, ∀ c ∈ x, c ∈ l ∨ c ∈ cur := by
  intro l
  induction l with
  | nil =>
    intro cur flag x hx c hc
    unfold splitlinesGo at hx
    split at hx
    · simp at hx
    · simp at hx
      subst hx
      exact Or.inr (List.mem_reverse.mp hc)
  | cons a rest ih =>
    intro cur flag x hx c hc
    unfold splitlinesGo at hx
    split at hx
    · rcases ih cur false x hx c hc with h | h
      · exact Or.inl (List.mem_cons_of_mem _ h)
      · exact Or.inr h
    · split at hx
      · rcases List.mem_cons.mp hx with h1 | h2
        · subst h1
          exact Or.inr (List.mem_reverse.mp hc)
        · rcases ih [] true x h2 c hc with h | h
          · exact Or.inl (List.mem_cons_of_mem _ h)
          · simp at h
      · split at hx
        · rcases List.mem_cons.mp hx with h1 | h2
          · subst h1
            exact Or.inr (List.mem_reverse.mp hc)
          · rcases ih [] false x h2 c hc with h | h
            · exact Or.inl (List.mem_cons_of_mem _ h)
            · simp at h
        · rcases ih (a :: cur) false x hx c hc with h | h
          · exact Or.inl (List.mem_cons_of_mem _ h)
          · rcases List.mem_cons.mp h with h1 | h2
            · subst h1
              exact Or.inl (List.mem_cons_self _ _)
            · exact Or.inr h2

theorem pySplitlines_chars (l : List Char) :
    ∀ x ∈ pySplitlines l, ∀ c ∈ x, c ∈ l := by
  intro x hx c hc
  rcases splitlinesGo_chars l [] false x hx c hc with h | h
  · exact h
  · simp at h

theorem tokensGo_chars : ∀ (l cur : List Char), ∀ x ∈ tokensGo l cur, ∀ c ∈ x, c ∈ l ∨ c ∈ cur := by
  intro l
  induction l with
  | nil =>
    intro cur x hx c hc
    unfold tokensGo at hx
    split at hx
    · simp at hx
    · simp at hx
      subst hx
      exact Or.inr (List.mem_reverse.mp hc)
  | cons a rest ih =>
    intro cur x hx c hc
    unfold tokensGo at hx
    split at hx
    · split at hx
      · rcases ih [] x hx c hc with h | h
        · exact Or.inl (List.mem_cons_of_mem _ h)
        · simp at h
      · rcases List.mem_cons.mp hx with h1 | h2
        · subst h1
          exact Or.inr (List.mem_reverse.mp hc)
        · rcases ih [] x h2 c hc with h | h
          · exact Or.inl (List.mem_cons_of_mem _ h)
          · simp at h
    · rcases ih (a :: cur) x hx c hc with h | h
      · exact Or.inl (List.mem_cons_of_mem _ h)
      · rcases List.mem_cons.mp h with h1 | h2
        · subst h1
          exact Or.inl (List.mem_cons_self _ _)
        · exact Or.inr h2

theorem pyTokens_chars (l : List Char) :
    ∀ x ∈ pyTokens l, ∀ c ∈ x, c ∈ l := by
  intro x hx c hc
  rcases tokensGo_chars l [] x hx c hc with h | h
  · exact h
  · simp at h

theorem pyStrip_chars (l : List Char) : ∀ c ∈ pyStrip l, c ∈ l := by
  intro c hc
  unfold pyStrip at hc
  rw [List.mem_reverse] at hc
  have h1 := (List.dropWhile_sublist _).mem hc
  rw [List.mem_reverse] at h1
  exact (List.dropWhile_sublist _).mem h1

theorem lineToks_chars (line : List Char) :
    ∀ x ∈ lineToks line, ∀ c ∈ x, c ∈ line := by
  intro x hx c hc
  exact pyStrip_chars line c (pyTokens_chars _ x hx c hc)

theorem scanBody_chars (endm : List Char) : ∀ (l : List Char),
    (∀ c ∈ (scanBody endm l).1, c ∈ l) ∧ (∀ c ∈ (scanBody endm l).2, c ∈ l) := by
  intro l
  induction l with
  | nil => simp [scanBody]
  | cons a rest ih =>
    unfold scanBody
    split
    · exact ⟨fun c hc => by simp at hc, fun c hc => hc⟩
    · split
      · constructor
        · intro c hc
          simp at hc
        · intro c hc
          simp at hc
          simp [hc]
      · constructor
        · intro c hc
          rcases List.mem_cons.mp hc with h1 | h2
          · subst h1
            exact List.mem_cons_self _ _
          · exact List.mem_cons_of_mem _ (ih.1 c h2)
        · intro c hc
          exact List.mem_cons_of_mem _ (ih.2 c hc)

theorem findBlocksGo_chars (startm endm : List Char) :
    ∀ (fuel : Nat) (text b : List Char), b ∈ findBlocksGo startm endm fuel text →
      ∀ c ∈ b, c ∈ text := by
  intro fuel
  induction fuel with
  | zero =>
    intro text b hb
    simp [findBlocksGo] at hb
  | succ n ih =>
    intro text b hb c hc
    cases text with
    | nil => simp [findBlocksGo] at hb
    | cons a cs =>
      unfold findBlocksGo at hb
      split at hb
      · rcases List.mem_cons.mp hb with h1 | h2
        · subst h1
          rcases List.mem_append.mp hc with h3 | h4
          · exact (List.take_sublist _ _).mem h3
          · have h5 := (scanBody_chars endm ((a :: cs).drop startm.length)).1 c h4
            exact (List.drop_sublist _ _).mem h5
        · have h6 := ih _ b h2 c hc
          have h7 := (scanBody_chars endm ((a :: cs).drop startm.length)).2 c h6
          exact (List.drop_sublist _ _).mem h7
      · exact List.mem_cons_of_mem _ (ih cs b hb c hc)

theorem findHeaderTail_mem : ∀ (lines tail : List (List Char)),
    findHeaderTail lines = some tail → ∀ l ∈ tail, l ∈ lines := by
  intro lines
  induction lines with
  | nil =>
    intro tail h
    simp [findHeaderTail] at h
  | cons l1 rest ih =>
    intro tail h
    cases rest with
    | nil => simp [findHeaderTail] at h
    | cons l2 rest2 =>
      unfold findHeaderTail at h
      by_cases hh : headerHit l1 l2
      · rw [if_pos hh] at h
        injection h with h'
        subst h'
        intro l hl
        exact List.mem_cons_of_mem _ (List.mem_cons_of_mem _ hl)
      · rw [if_neg hh] at h
        intro l hl
        exact List.mem_cons_of_mem _ (ih tail h l hl)

theorem takeDataLines_mem : ∀ (lines : List (List Char)) (l : List Char),
    l ∈ takeDataLines lines → l ∈ lines := by
  intro lines
  induction lines with
  | nil =>
    intro l h
    simp [takeDataLines] at h
  | cons x rest ih =>
    intro l h
    unfold takeDataLines at h
    split at h
    · simp at h
    · rcases List.mem_cons.mp h with h1 | h2
      · subst h1
        exact List.mem_cons_self _ _
      · exact List.mem_cons_of_mem _ (ih l h2)

theorem tokGet_mem {toks : List (List Char)} {i : Nat} (h : i < toks.length) :
    tokGet toks i ∈ toks := by
  unfold tokGet
  rw [List.getD_eq_getElem?_getD, List.getElem?_eq_getElem h]
  exact List.getElem_mem h

-- ===== sign preservation of the numeric parsers =====

theorem pyInt_nonneg {l : List Char} {n : Int} (hnd : '-' ∉ l) (h : pyInt l = some n) :
    0 ≤ n := by
  unfold pyInt at h
  split at h
  next => simp at h
  next c rest heq =>
    by_cases hplus : c = '+'
    · rw [if_pos hplus] at h
      split at h
      · injection h with h'
        rw [← h']
        exact Int.ofNat_nonneg _
      · simp at h
    · rw [if_neg hplus] at h
      by_cases hminus : c = '-'
      · exfalso
        apply hnd
        apply pyStrip_chars l
        rw [heq, hminus]
        exact List.mem_cons_self _ _
      · rw [if_neg hminus] at h
        split at h
        · injection h with h'
          rw [← h']
          exact Int.ofNat_nonneg _
        · simp at h

theorem qDec_nonneg (n : Nat) (e : Nat) : 0 ≤ qDec (Int.ofNat n) e := by
  rw [qDec_eq]
  apply div_nonneg
  · exact Int.cast_nonneg.mpr (Int.ofNat_nonneg n)
  · positivity

theorem applyExponent_nonneg {base : ℚ} {e : Option (List Char)} {q : ℚ}
    (hb : 0 ≤ base) (h : applyExponent base e = some q) : 0 ≤ q := by
  cases e with
  | none =>
    unfold applyExponent at h
    injection h with h'
    rw [← h']
    exact hb
  | some el =>
    cases el with
    | nil =>
      simp [applyExponent] at h
    | cons c d =>
      simp only [applyExponent] at h
      by_cases h1 : c = '+'
      · rw [if_pos h1] at h
        split at h
        · injection h with h'
          rw [← h', qMulNat_eq]
          exact mul_nonneg hb (by positivity)
        · simp at h
      · rw [if_neg h1] at h
        by_cases h2 : c = '-'
        · rw [if_pos h2] at h
          split at h
          · injection h with h'
            rw [← h', qDivNat_eq]
            exact div_nonneg hb (by positivity)
          · simp at h
        · rw [if_neg h2] at h
          split at h
          · injection h with h'
            rw [← h', qMulNat_eq]
            exact mul_nonneg hb (by positivity)
          · simp at h

theorem parseUnsignedFloat_nonneg {l : List Char} {q : ℚ}
    (h : parseUnsignedFloat l = some q) : 0 ≤ q := by
  unfold parseUnsignedFloat at h
  split at h
  · simp at h
  · split at h
    · exact applyExponent_nonneg (qDec_nonneg _ _) h
    · simp at h

theorem pyFloat_nonneg {l : List Char} {q : ℚ} (hnd : '-' ∉ l) (h : pyFloat l = some q) :
    0 ≤ q := by
  unfold pyFloat at h
  split at h
  next => simp at h
  next c rest heq =>
    by_cases h1 : c = '+'
    · rw [if_pos h1] at h
      exact parseUnsignedFloat_nonneg h
    · rw [if_neg h1] at h
      by_cases h2 : c = '-'
      · exfalso
        apply hnd
        apply pyStrip_chars l
        rw [heq, h2]
        exact List.mem_cons_self _ _
      · rw [if_neg h2] at h
        exact parseUnsignedFloat_nonneg h

theorem cleanNumeric_nonneg {l : List Char} (hnd : '-' ∉ l) : 0 ≤ cleanNumeric l := by
  unfold cleanNumeric
  have hnd2 : '-' ∉ (l.filter (fun c => c ≠ '.')).map (fun c => if c = ',' then '.' else c) := by
    intro hm
    rw [List.mem_map] at hm
    rcases hm with ⟨o, ho, hoe⟩
    by_cases hc : o = ','
    · rw [if_pos hc] at hoe
      exact absurd hoe (by decide)
    · rw [if_neg hc] at hoe
      subst hoe
      exact hnd (List.mem_of_mem_filter ho)
  cases hf : pyFloat ((l.filter (fun c => c ≠ '.')).map (fun c => if c = ',' then '.' else c)) with
  | none => simp
  | some q => simpa using pyFloat_nonneg hnd2 hf

-- ===== trade-line parses take their numeric fields from the tokens =====

theorem parseXpBtgItauLine_fields {toks : List (List Char)} {t : AvistaTrade}
    (h : parseXpBtgItauLine toks = some t) :
    ∃ tq ∈ toks, ∃ tv ∈ toks,
      pyInt (stripSeps tq) = some t.quantidade ∧ t.valor = cleanNumeric tv := by
  unfold parseXpBtgItauLine at h
  split at h
  next => simp at h
  next hlen =>
    split at h
    next => simp at h
    next q hq =>
      injection h with h'
      refine ⟨tokGet toks (toks.length - 4), tokGet_mem (by omega),
        tokGet toks (toks.length - 2), tokGet_mem (by omega), ?_, ?_⟩
      · rw [← h']
        exact hq
      · rw [← h']

theorem parseAgoraLine_fields {toks : List (List Char)} {t : AvistaTrade}
    (h : parseAgoraLine toks = some t) :
    ∃ tq ∈ toks, ∃ tv ∈ toks,
      pyInt (stripSeps tq) = some t.quantidade ∧ t.valor = cleanNumeric tv := by
  unfold parseAgoraLine at h
  split at h
  next => simp at h
  next hlen =>
    split at h
    next => simp at h
    next q hq =>
      injection h with h'
      refine ⟨tokGet toks (toks.length - 4), tokGet_mem (by omega),
        tokGet toks (toks.length - 2), tokGet_mem (by omega), ?_, ?_⟩
      · rw [← h']
        exact hq
      · rw [← h']

theorem parseTradeLine_fields {nameU : List Char} {toks : List (List Char)} {t : AvistaTrade}
    (h : parseTradeLine nameU toks = some t) :
    ∃ tq ∈ toks, ∃ tv ∈ toks,
      pyInt (stripSeps tq) = some t.quantidade ∧ t.valor = cleanNumeric tv := by
  unfold parseTradeLine at h
  split at h
  · exact parseXpBtgItauLine_fields h
  · split at h
    · exact parseAgoraLine_fields h
    · simp at h

-- ===== the extractors never create a sign of their own =====

theorem genericExtractTrades_nonneg (cfg : BrokerCfg) (text : List Char) (hnd : '-' ∉ text) :
    ∀ t ∈ genericExtractTrades cfg text, 0 ≤ t.quantidade ∧ 0 ≤ t.valor := by
  intro t ht
  unfold genericExtractTrades findBlocks at ht
  rw [List.mem_flatMap] at ht
  rcases ht with ⟨block, hblock, ht⟩
  have hblockchars : ∀ c ∈ block, c ∈ text :=
    findBlocksGo_chars cfg.tradeStartMarker cfg.tradeEndMarker _ text block hblock
  cases hht : findHeaderTail (pySplitlines block) with
  | none => simp [hht] at ht
  | some tail =>
    simp only [hht, List.mem_filterMap] at ht
    rcases ht with ⟨line, hline, hparse⟩
    have hlinechars : ∀ c ∈ line, c ∈ text := by
      intro c hc
      apply hblockchars
      exact pySplitlines_chars block line
        (findHeaderTail_mem _ _ hht line (takeDataLines_mem _ _ hline)) c hc
    rcases parseTradeLine_fields hparse with ⟨tq, htq, tv, htv, hq, hv⟩
    have htokchars : ∀ tok ∈ lineToks line, ∀ c ∈ tok, c ∈ text := by
      intro tok htok c hc
      exact hlinechars c (lineToks_chars line tok htok c hc)
    constructor
    · apply pyInt_nonneg ?_ hq
      intro hm
      exact hnd (htokchars tq htq '-' (List.mem_of_mem_filter hm))
    · rw [hv]
      apply cleanNumeric_nonneg
      intro hm
      exact hnd (htokchars tv htv '-' hm)

theorem bmfExtractTrades_nonneg (text : List Char) (hnd : '-' ∉ text) :
    ∀ t ∈ bmfExtractTrades text, 0 ≤ t.quantidade ∧ 0 ≤ t.valorOperacao := by
  intro t ht
  unfold bmfExtractTrades at ht
  rw [List.mem_filterMap] at ht
  rcases ht with ⟨line, hline, hres⟩
  have htokchars : ∀ tok ∈ lineToks line, ∀ c ∈ tok, c ∈ text := by
    intro tok htok c hc
    exact pySplitlines_chars text line hline c (lineToks_chars line tok htok c hc)
  split at hres
  next hcond =>
    split at hres
    next => simp at hres
    next q hq =>
      injection hres with h'
      have h9 : 9 ≤ (lineToks line).length := hcond.1
      constructor
      · rw [← h']
        apply pyInt_nonneg ?_ hq
        intro hm
        exact hnd (htokchars _ (tokGet_mem (by omega)) '-' hm)
      · rw [← h']
        apply cleanNumeric_nonneg
        intro hm
        exact hnd (htokchars _ (tokGet_mem (by omega)) '-' hm)
  next => simp at hres

theorem xpBmfExtractTrades_nonneg (text : List Char) (hnd : '-' ∉ text) :
    ∀ t ∈ xpBmfExtractTrades text, 0 ≤ t.quantidade ∧ 0 ≤ t.valorOperacao := by
  intro t ht
  unfold xpBmfExtractTrades at ht
  rw [List.mem_filterMap] at ht
  rcases ht with ⟨line, hline, hres⟩
  have htokchars : ∀ tok ∈ lineToks line, ∀ c ∈ tok, c ∈ text := by
    intro tok htok c hc
    exact pySplitlines_chars text line hline c (lineToks_chars line tok htok c hc)
  split at hres
  next => simp at hres
  next hlen =>
    split at hres
    next hcond =>
      split at hres
      next => simp at hres
      next q hq =>
        have h10 : 10 ≤ (lineToks line).length := by omega
        have hqok : 0 ≤ q := by
          apply pyInt_nonneg ?_ hq
          intro hm
          exact hnd (htokchars _ (tokGet_mem (by omega)) '-' (List.mem_of_mem_filter hm))
        split at hres
        next =>
          split at hres
          next => simp at hres
          next hlen11 =>
            injection hres with h'
            constructor
            · rw [← h']
              exact hqok
            · rw [← h']
              apply cleanNumeric_nonneg
              intro hm
              exact hnd (htokchars _ (tokGet_mem (by omega)) '-' hm)
        next =>
          injection hres with h'
          constructor
          · rw [← h']
            exact hqok
          · rw [← h']
            apply cleanNumeric_nonneg
            intro hm
            exact hnd (htokchars _ (tokGet_mem (by omega)) '-' hm)
    next => simp at hres

/-- C4 counterexample: on a text whose quantity and value tokens carry a
minus sign, the spot extractor produces a trade with quantity -100 and
value -2850.00: the extractors perform no sign validation, so the claimed
invariant (quantity strictly positive, value non-negative) fails. -/
theorem negative_value_trade_counterexample :
    genericExtractTrades btgConfig negativeValuesText = [negScenarioTrade] ∧
    negScenarioTrade.quantidade < 0 ∧ negScenarioTrade.valor < 0 :=
  ⟨by decide, by decide, by decide⟩

/-- C4 (amended): the extractors copy the numeric tokens verbatim and never
negate a value themselves (the sign convention is carried by the D/C token
alone), so on any input text that contains no minus sign every trade
produced by any of the three trade extractors has non-negative quantity and
non-negative operation/adjustment value; a minus sign in a quantity or value
token, or a zero quantity token, flows through unchecked, which is the only
way the claimed invariant can fail. -/
theorem trades_nonneg_without_minus (cfg : BrokerCfg) (text : List Char) (hnd : '-' ∉ text) :
    (∀ t ∈ genericExtractTrades cfg text, 0 ≤ t.quantidade ∧ 0 ≤ t.valor) ∧
    (∀ t ∈ bmfExtractTrades text, 0 ≤ t.quantidade ∧ 0 ≤ t.valorOperacao) ∧
    (∀ t ∈ xpBmfExtractTrades text, 0 ≤ t.quantidade ∧ 0 ≤ t.valorOperacao) :=
  ⟨genericExtractTrades_nonneg cfg text hnd, bmfExtractTrades_nonneg text hnd,
    xpBmfExtractTrades_nonneg text hnd⟩

theorem trades_nonneg_without_minus_witness :
    0 ≤ scenarioTrade.quantidade ∧ 0 ≤ scenarioTrade.valor :=
  (trades_nonneg_without_minus btgConfig headeredScenarioText (by decide)).1
    scenarioTrade (by decide)

-- ===== section isolation: absent markers (claims C5 and C8) =====

theorem containsCI_parts {c : Char} {cs : List Char} {p : Char} {ps : List Char}
    (h : containsCI (c :: cs) (p :: ps) = false) :
    startsWithCI (p :: ps) (c :: cs) = false ∧ containsCI cs (p :: ps) = false := by
  unfold containsCI at h
  exact Bool.or_eq_false_iff.mp h

theorem findBlocksGo_nil (startm endm : List Char) :
    ∀ (fuel : Nat) (text : List Char), containsCI text startm = false →
      findBlocksGo startm endm fuel text = [] := by
  intro fuel
  induction fuel with
  | zero => intro text h; rfl
  | succ n ih =>
    intro text h
    cases text with
    | nil => rfl
    | cons c cs =>
      cases startm with
      | nil => simp [containsCI] at h
      | cons p ps =>
        have hp := containsCI_parts h
        unfold findBlocksGo
        rw [if_neg (by simp [hp.1])]
        exact ih cs hp.2

/-- C5 counterexample: a text containing the BTG start marker and a header
but not the end marker still yields one extracted trade: with `re.DOTALL`
the block pattern `START.*?(?=END|$)` falls back to `$`, so the section runs
to the end of the text instead of being empty. -/
theorem end_marker_absent_counterexample :
    containsCI noEndMarkerText btgConfig.tradeEndMarker = false ∧
    containsCI noEndMarkerText btgConfig.tradeStartMarker = true ∧
    genericExtractTrades btgConfig noEndMarkerText = [scenarioTrade] :=
  ⟨by decide, by decide, by decide⟩

/-- C5 (amended): when the start marker does not occur (case-insensitively)
in the text, the spot extractor finds no block and returns the empty trade
list, without raising; absence of only the end marker does NOT yield zero
trades: the section then extends to the end of the text and trades are
still extracted, as the second conjunct witnesses on a concrete text. -/
theorem start_marker_absent_no_trades :
    (∀ (cfg : BrokerCfg) (text : List Char),
      containsCI text cfg.tradeStartMarker = false →
      genericExtractTrades cfg text = []) ∧
    genericExtractTrades btgConfig noEndMarkerText = [scenarioTrade] := by
  constructor
  · intro cfg text h
    unfold genericExtractTrades findBlocks
    rw [findBlocksGo_nil cfg.tradeStartMarker cfg.tradeEndMarker (text.length + 1) text h]
    rfl
  · decide

theorem start_marker_absent_no_trades_witness :
    genericExtractTrades btgConfig ("hello").data = [] :=
  start_marker_absent_no_trades.1 btgConfig ("hello").data (by decide)

/-- C8 counterexample: on the exact scenario text, each of the four
registered brokerage configurations extracts zero trades — the text has no
column-header line, and header detection (at least 4 of the 6 expected
labels in a two-line window) is a precondition for any line parsing — so no
brokerage produces the claimed single Trade. -/
theorem scenario_text_yields_no_trades :
    genericExtractTrades btgConfig scenarioText = [] ∧
    genericExtractTrades itauConfig scenarioText = [] ∧
    genericExtractTrades agoraConfig scenarioText = [] ∧
    genericExtractTrades xpConfig scenarioText = [] :=
  ⟨by decide, by decide, by decide, by decide⟩

/-- C8 (amended): the scenario text alone yields no trades (no header line);
after inserting a column-header line after the start marker, the BTG (and
identically XP/ITAU) extractor returns exactly one trade from the data line
— but with the positional token mapping of the source: Negociação "B3",
C/V "RV", Tipo Mercado "LISTADO", Especificação "C VISTA", quantity 100,
price 28.50, value 2850.00, D/C "D", not the direction "C" / type "VISTA" /
ticker "PETR4" distribution the claim states. -/
theorem scenario_extraction_needs_header :
    genericExtractTrades btgConfig scenarioText = [] ∧
    genericExtractTrades btgConfig headeredScenarioText = [scenarioTrade] ∧
    scenarioTrade.cv = "RV" ∧ scenarioTrade.tipoMercado = "LISTADO" ∧
    scenarioTrade.especificacao = "C VISTA" ∧ scenarioTrade.quantidade = 100 ∧
    scenarioTrade.preco = 285 / 10 ∧ scenarioTrade.valor = 2850 ∧
    scenarioTrade.dc = "D" :=
  ⟨by decide, by decide, rfl, rfl, rfl, rfl,
    by show qDec 2850 2 = 285 / 10; rw [qDec_eq]; norm_num,
    by show qDec 285000 2 = 2850; rw [qDec_eq]; norm_num,
    rfl⟩
